import Mathlib

/-!
Verification of the loudness-measurement engine of `audiotools`
(`src/audiotools/core/loudness.py`): the tensorized BS.1770-4 meter
(`unfold1d`, `Meter.apply_filter_gpu`, `Meter.apply_filter_cpu`,
`Meter.unfold`, `Meter.integrated_loudness`) and the caller-level
`LoudnessMixin.loudness`.

Embedding conventions:
* Tensors are nested lists, kept in the same axis order as the source
  (`(nb, nt, nch)` for the meter input, `(nb, nch, nt)` for the signal
  container's `audio_data`).
* Scalar values are `FV`: an exact rational together with the IEEE-754
  special values `+inf`, `-inf` and `nan`.  The arithmetic on `FV`
  follows the IEEE rules implemented by torch (`0/0 = nan`,
  `x/0 = ±inf`, comparisons with `nan` are false, `torch.maximum`
  propagates `nan`), without modelling rounding: rationals stand for
  the exactly representable values.
* `log10` on a positive finite value is an irrational real, so the
  positive branch is a parameter `L : ℚ → ℚ` of every definition that
  uses it; the zero/negative/special branches (the ones the claims
  depend on) are fixed to the IEEE behaviour (`log10 0 = -inf`,
  `log10 x = nan` for `x < 0`).  All theorems below are universally
  quantified over `L`, hence hold for the true logarithm.
* Fallible tensor operations (`as_strided` past the end of the
  storage, illegal broadcasts, shape-unpacking failures, `expand` to an
  incompatible size) are modelled with `Except Err`; `Err` also carries
  a `shapeError` constructor for the error class that the design
  documentation postulates, so that "no ShapeError is raised" is
  expressible.
-/

/-- Error kinds the embedded operations can surface.  `shapeError` is the
class postulated by the design document; the remaining constructors model
the runtime errors the underlying tensor library actually raises. -/
inductive Err where
  | shapeError
  | valueError
  | broadcastError
  | storageError
  | zeroDivError
  | expandError
deriving DecidableEq

/-- Idealized floating-point value: an exact rational, `+inf`, `-inf`
or `nan`. -/
inductive FV where
  | fin : ℚ → FV
  | inf : FV
  | ninf : FV
  | nan : FV
deriving DecidableEq

namespace FV

/-- IEEE addition on `FV` (exact on finite values). -/
def add : FV → FV → FV
  | fin a, fin b => fin (a + b)
  | fin _, inf => inf
  | fin _, ninf => ninf
  | inf, fin _ => inf
  | ninf, fin _ => ninf
  | inf, inf => inf
  | ninf, ninf => ninf
  | inf, ninf => nan
  | ninf, inf => nan
  | _, _ => nan

/-- IEEE multiplication on `FV` (exact on finite values); `0 * ±inf = nan`. -/
def mul : FV → FV → FV
  | fin a, fin b => fin (a * b)
  | fin a, inf => if 0 < a then inf else if a < 0 then ninf else nan
  | fin a, ninf => if 0 < a then ninf else if a < 0 then inf else nan
  | inf, fin b => if 0 < b then inf else if b < 0 then ninf else nan
  | ninf, fin b => if 0 < b then ninf else if b < 0 then inf else nan
  | inf, inf => inf
  | inf, ninf => ninf
  | ninf, inf => ninf
  | ninf, ninf => inf
  | _, _ => nan

/-- IEEE division on `FV`; `x/0` is `±inf` for `x ≠ 0` and `0/0 = nan`
(signed zero is not modelled: the zero divisors arising in the meter are
nonnegative block counts, matching `+0`). -/
def div : FV → FV → FV
  | fin a, fin b =>
      if b ≠ 0 then fin (a / b)
      else if 0 < a then inf else if a < 0 then ninf else nan
  | fin _, inf => fin 0
  | fin _, ninf => fin 0
  | inf, fin b => if 0 ≤ b then inf else ninf
  | ninf, fin b => if 0 ≤ b then ninf else inf
  | inf, inf => nan
  | inf, ninf => nan
  | ninf, inf => nan
  | ninf, ninf => nan
  | _, _ => nan

/-- IEEE `≤` as a boolean: any comparison involving `nan` is false. -/
def le : FV → FV → Bool
  | fin a, fin b => decide (a ≤ b)
  | fin _, inf => true
  | fin _, ninf => false
  | inf, fin _ => false
  | ninf, fin _ => true
  | inf, inf => true
  | ninf, ninf => true
  | ninf, inf => true
  | inf, ninf => false
  | _, _ => false

/-- IEEE `<` as a boolean: any comparison involving `nan` is false. -/
def lt : FV → FV → Bool
  | fin a, fin b => decide (a < b)
  | fin _, inf => true
  | fin _, ninf => false
  | inf, fin _ => false
  | ninf, fin _ => true
  | inf, inf => false
  | ninf, ninf => false
  | ninf, inf => true
  | inf, ninf => false
  | _, _ => false

/-- `torch.maximum`: propagates `nan`, otherwise the larger argument. -/
def fmax : FV → FV → FV
  | nan, _ => nan
  | _, nan => nan
  | a, b => if le a b then b else a

/-- Sum of a list of `FV` values (`tensor.sum(...)` over one axis). -/
def sum (l : List FV) : FV := l.foldl add (fin 0)

/-- `torch.log10`, with the positive finite branch given by the
parameter `L` (the exact base-10 logarithm is irrational on almost all
positive rationals).  The branches the claims depend on are fixed:
`log10` of `0` is `-inf`, of a negative value is `nan`. -/
def log10 (L : ℚ → ℚ) : FV → FV
  | fin q => if 0 < q then fin (L q) else if q = 0 then ninf else nan
  | inf => inf
  | ninf => nan
  | nan => nan

/-- `isnan` test. -/
def isnan : FV → Bool
  | nan => true
  | _ => false

end FV

/-- Largest finite `float32` value, `np.finfo(np.float32).max`. -/
def f32max : ℚ := 2 ^ 128 - 2 ^ 104

/-- Transpose of a list-of-lists matrix with an explicit column count
(models `Tensor.transpose(-1, -2)` / `permute` on the two trailing axes;
the column count comes from the tensor's shape). -/
def transposeL (m : List (List FV)) (cols : ℕ) : List (List FV) :=
  (List.range cols).map (fun j => m.map (fun row => row.getD j (FV.fin 0)))

/-- A batch of signals in the meter's layout `(nb, nt, nch)`. -/
abbrev Sig := List (List (List FV))

/-- Rectangularity of a rank-2 slice: `nt` rows of `nch` entries. -/
def Rect2 (e : List (List FV)) (nt nch : ℕ) : Prop :=
  e.length = nt ∧ ∀ r ∈ e, r.length = nch

/-- Rectangularity of a rank-3 batch: `nb` elements, each `nt × nch`. -/
def Rect3 (x : Sig) (nb nt nch : ℕ) : Prop :=
  x.length = nb ∧ ∀ e ∈ x, Rect2 e nt nch

instance (e : List (List FV)) (nt nch : ℕ) : Decidable (Rect2 e nt nch) := by
  unfold Rect2; infer_instance

instance (x : Sig) (nb nt nch : ℕ) : Decidable (Rect3 x nb nt nch) := by
  unfold Rect3; infer_instance

/-- One weighting filter stage: numerator/denominator coefficients and a
passband gain (`pyloudnorm`'s `IIRfilter`, consumed through
`self._filters`; its coefficient derivation is outside this repository,
so stages are parameters of the model). -/
structure FilterStage where
  b : List ℚ
  a : List ℚ
  passband_gain : ℚ
deriving DecidableEq

/-- The meter's configuration: `Meter.__init__` stores the sample rate,
gating block size `T_g`, the `use_fir` preference, the ordered stage
list and the FIR impulse-response length `zeros` (default 512). -/
structure Meter where
  rate : ℚ
  block_size : ℚ
  use_fir : Bool
  stages : List FilterStage
  zeros : ℕ
deriving DecidableEq

/-- Channel gains `G = [1.0, 1.0, 1.0, 1.41, 1.41]` registered in
`Meter.__init__`. -/
def Gvec : List ℚ := [1, 1, 1, 141 / 100, 141 / 100]

/-- `G[None, :nch]`: the gain vector sliced to the channel count (the
slice clamps at 5 entries, exactly like the Python slice). -/
def gSlice (nch : ℕ) : List FV := (Gvec.take nch).map FV.fin

/-- Direct-form IIR filtering `y[n] = (Σ_k b[k]·x[n-k] − Σ_{k≥1} a[k]·y[n-k]) / a[0]`,
the difference equation evaluated by both `scipy.signal.lfilter` and
`torchaudio.functional.lfilter` on one time lane. -/
def lfilterFV (bc ac : List ℚ) (x : List FV) : List FV :=
  (List.range x.length).foldl (fun ys n =>
    let xsum := FV.sum ((List.range bc.length).map (fun k =>
      if k ≤ n then FV.mul (FV.fin (bc.getD k 0)) (x.getD (n - k) (FV.fin 0))
      else FV.fin 0))
    let ysum := FV.sum ((List.range ac.length).map (fun k =>
      if 1 ≤ k ∧ k ≤ n then FV.mul (FV.fin (ac.getD k 0)) (ys.getD (n - k) (FV.fin 0))
      else FV.fin 0))
    ys ++ [FV.div (FV.add xsum (FV.mul (FV.fin (-1)) ysum)) (FV.fin (ac.headD 1))]) []

/-- The unit impulse `impulse = zeros((zeros,)); impulse[0] = 1`. -/
def impulseFV (zeros : ℕ) : List FV :=
  (List.range zeros).map (fun i => if i = 0 then FV.fin 1 else FV.fin 0)

/-- One row of the `firs` buffer: the stage's impulse response of length
`zeros` (`scipy.signal.lfilter(b, a, impulse)`), reversed
(`firs[..., ::-1]`). -/
def firOf (zeros : ℕ) (st : FilterStage) : List FV :=
  (lfilterFV st.b st.a (impulseFV zeros)).reverse

/-- `F.pad(data, (p, p))`: zero padding on both ends of a time lane. -/
def padBoth (p : ℕ) (x : List FV) : List FV :=
  List.replicate p (FV.fin 0) ++ x ++ List.replicate p (FV.fin 0)

/-- Valid cross-correlation of a kernel `w` with a lane `x`
(`julius.fftconv.fft_conv1d` computes the same result as `F.conv1d`,
via frequency-domain multiplication). -/
def crossCorr (w x : List FV) : List FV :=
  (List.range (x.length + 1 - w.length)).map (fun j =>
    FV.sum ((List.range w.length).map (fun k =>
      FV.mul (w.getD k (FV.fin 0)) (x.getD (j + k) (FV.fin 0)))))

/-- One stage of `apply_filter_gpu` on one `(nb*nch)` lane: pad by
`zeros` on both sides, convolve with the stage's reversed impulse
response, scale by the passband gain and keep samples `[1, nt+1)`. -/
def gpuStage (zeros nt : ℕ) (st : FilterStage) (lane : List FV) : List FV :=
  (((crossCorr (firOf zeros st) (padBoth zeros lane)).map
    (fun v => FV.mul (FV.fin st.passband_gain) v)).drop 1).take nt

/-- `Meter.apply_filter_gpu`: reshape `(nb, nt, nch)` to `(nb*nch, 1, nt)`,
apply the `gpuStage` steps in sequence, then `permute(0, 2, 1)` and
slice `[:, :nt, :]`.  Note the source never reshapes `(nb*nch, 1, nt)`
back to `(nb, nch, nt)`, so the output is `(nb*nch, nt, 1)`. -/
def applyFilterGpu (m : Meter) (x : Sig) : Sig :=
  let nt := (x.headD []).length
  let lanes : List (List FV) :=
    (x.map (fun e => transposeL e ((e.headD []).length))).flatten
  let filtered := m.stages.foldl (fun d st => d.map (gpuStage m.zeros nt st)) lanes
  (filtered.map (fun lane => lane.map (fun v => [v]))).map (List.take nt)

/-- One stage of `apply_filter_cpu` on one batch element:
`permute(0, 2, 1)`, apply `torchaudio.functional.lfilter` with the
stage's coefficients along the time axis, permute back and scale by the
passband gain. -/
def cpuStage (st : FilterStage) (e : List (List FV)) : List (List FV) :=
  let chs := transposeL e ((e.headD []).length)
  let filt := chs.map (lfilterFV st.b st.a)
  (transposeL filt ((filt.headD []).length)).map
    (fun row => row.map (fun v => FV.mul (FV.fin st.passband_gain) v))

/-- `Meter.apply_filter_cpu`: the `cpuStage` steps applied in sequence
to the whole batch. -/
def applyFilterCpu (stages : List FilterStage) (x : Sig) : Sig :=
  stages.foldl (fun d st => d.map (cpuStage st)) x

/-- `Meter.apply_filter`: the FIR/convolution strategy is taken when the
data lives on an accelerator or `use_fir` is set, else the direct
recursive strategy. -/
def applyFilter (m : Meter) (cuda : Bool) (x : Sig) : Sig :=
  if cuda || m.use_fir then applyFilterGpu m x else applyFilterCpu m.stages x

/-- `int(T_g * rate)` from `Meter.unfold` (Python `int()` truncates; for
the nonnegative products used by the meter this is the floor). -/
def kernelSize (Tg rate : ℚ) : ℕ := (Int.floor (Tg * rate)).toNat

/-- `int(T_g * rate * step)` with `step = 1.0 - 0.75 = 0.25` from
`Meter.unfold`: the stride is the truncation of the full product
`T_g·rate·0.25` (not of the already-truncated block length). -/
def strideSize (Tg rate : ℚ) : ℕ := (Int.floor (Tg * rate * (1 / 4))).toNat

/-- `n_frames = (max(length, kernel_size) - kernel_size) // stride + 1`
from `unfold1d`. -/
def nFrames (len k s : ℕ) : ℕ := (max len k - k) / s + 1

/-- `tgt_length = (n_frames - 1) * stride + kernel_size` from `unfold1d`. -/
def tgtLength (len k s : ℕ) : ℕ := (nFrames len k s - 1) * s + k

/-- The strided view of one `(nt, nch)` batch element after
`permute(0, 2, 1)`: per channel lane, the `as_strided` window matrix
`(n_frames, kernel)` with `view[f][j] = lane[f*stride + j]`, transposed
to `(kernel, n_frames)` by the final `transpose(-1, -2)` of `unfold1d`.
`len` is the global time length from the tensor's shape. -/
def unfoldElt (len k s : ℕ) (e : List (List FV)) : List (List (List FV)) :=
  (transposeL e ((e.headD []).length)).map (fun lane =>
    transposeL ((List.range (nFrames len k s)).map (fun f =>
      (List.range k).map (fun j => lane.getD (f * s + j) (FV.fin 0)))) k)

/-- `unfold1d` applied through `Meter.unfold` to a `(nb, nt, nch)` batch.
Python `//` by a zero stride raises `ZeroDivisionError`; `as_strided`
raises a storage-bound error when the requested view
(`tgt_length` samples per lane) exceeds the sliced storage
(`min(length, tgt_length)` samples), i.e. exactly when
`tgt_length > length`. -/
def unfoldSig (k s : ℕ) (x : Sig) : Except Err (List (List (List (List FV)))) :=
  let len := (x.headD []).length
  if s = 0 then .error .zeroDivError
  else if len < tgtLength len k s then .error .storageError
  else .ok (x.map (unfoldElt len k s))

/-- `Meter.unfold`: block length and stride derived from `T_g`, `rate`
and the fixed 75% overlap, then `unfold1d`. -/
def meterUnfold (m : Meter) (x : Sig) : Except Err (List (List (List (List FV)))) :=
  unfoldSig (kernelSize m.block_size m.rate) (strideSize m.block_size m.rate) x

/-- Broadcast product-and-reduce of two vectors
(`(x * y).sum(channel axis)` where either factor may have a
channel dimension of size 1); assumes the lengths were already checked
broadcast-compatible. -/
def dotRaw (x y : List FV) : FV :=
  if x.length = y.length then FV.sum (List.zipWith FV.mul x y)
  else if x.length = 1 then FV.sum (y.map (fun v => FV.mul (x.headD (FV.fin 0)) v))
  else FV.sum (x.map (fun v => FV.mul v (y.headD (FV.fin 0))))

/-- Broadcast legality for an elementwise op between a length-`p` and a
length-`q` channel axis: torch accepts equal sizes or a size-1 side. -/
def bcOk (p q : ℕ) : Bool := p = q || p = 1 || q = 1

/-- `(x * y).sum(channel axis)` with the broadcast check torch performs;
`x` is the left operand of the product, as written in the source. -/
def bDot (x y : List FV) : Except Err FV :=
  if bcOk x.length y.length then .ok (dotRaw x y) else .error .broadcastError

/-- `(G[None, :nch, None] * z).sum(1, keepdim=True)` for one batch
element: `z` is `(C, nF)`; each output entry `f` is the gain-weighted
channel sum of column `f`. -/
def bMulSum (g : List FV) (z : List (List FV)) (nF : ℕ) : Except Err (List FV) :=
  if bcOk g.length z.length then
    .ok ((List.range nF).map (fun f => dotRaw g (z.map (fun row => row.getD f (FV.fin 0)))))
  else .error .broadcastError

/-- `-0.691 + 10.0 * torch.log10 x`, the loudness expression used for
the block loudness `l`, the relative threshold `Gamma_r` and the final
LUFS value. -/
def lufsExpr (L : ℚ → ℚ) (x : FV) : FV :=
  FV.add (FV.fin (-691 / 1000)) (FV.mul (FV.fin 10) (FV.log10 L x))

/-- `Gamma_a = -70.0`, the absolute loudness threshold. -/
def GammaA : FV := FV.fin (-70)

/-- Block loudness for one batch element:
`l = -0.691 + 10*log10((G[None,:nch,None] * z).sum(1))`, one value per
block, shared by all channels (`l.expand_as(z)`). -/
def lElt (L : ℚ → ℚ) (g : List FV) (z : List (List FV)) (nF : ℕ) :
    Except Err (List FV) :=
  (bMulSum g z nF).map (List.map (lufsExpr L))

/-- In-place masked zeroing `t[l <= γ] = 0` on one channel row (the mask
is the block-loudness row compared against a threshold). -/
def maskLE (l : List FV) (γ : FV) (row : List FV) : List FV :=
  List.zipWith (fun lv zv => if FV.le lv γ then FV.fin 0 else zv) l row

/-- `z_avg_gated = z; z_avg_gated[l <= Gamma_a] = 0` — the absolute-gate
zeroing.  `z_avg_gated` aliases `z`, so this mutates `z` in place. -/
def zMutElt (l : List FV) (z : List (List FV)) : List (List FV) :=
  z.map (maskLE l GammaA)

/-- `masked = l > Gamma_a; masked.sum(2)` — the surviving-block count of
the absolute gate (identical for every channel since `l` is expanded). -/
def m1Elt (l : List FV) : ℕ := l.countP (fun lv => FV.lt GammaA lv)

/-- `z_avg_gated.sum(2) / masked.sum(2)` after the absolute gate. -/
def zAvg1Elt (l : List FV) (z : List (List FV)) : List FV :=
  (zMutElt l z).map (fun row => FV.div (FV.sum row) (FV.fin (m1Elt l)))

/-- `Gamma_r = -0.691 + 10*log10((z_avg_gated * G[None,:nch]).sum(-1)) - 10`
for one batch element. -/
def gammaRElt (L : ℚ → ℚ) (g : List FV) (l : List FV) (z : List (List FV)) :
    Except Err FV :=
  (bDot (zAvg1Elt l z) g).map (fun d => FV.add (lufsExpr L d) (FV.fin (-10)))

/-- `masked = (l > Gamma_a) * (l > Gamma_r); masked.sum(2)` — the
surviving-block count of the final gate. -/
def m2Elt (l : List FV) (γr : FV) : ℕ :=
  l.countP (fun lv => FV.lt GammaA lv && FV.lt γr lv)

/-- The final gating exactly as executed by the source:
`z_avg_gated = z` re-aliases the tensor already mutated by the
absolute-gate step (`zMutElt`), it is then zeroed again where
`l <= Gamma_a`, zeroed where `l <= Gamma_r`, summed over blocks and
divided by the surviving count. -/
def zAvg2Elt (l : List FV) (γr : FV) (z : List (List FV)) : List FV :=
  let z3 := ((zMutElt l z).map (maskLE l GammaA)).map (maskLE l γr)
  z3.map (fun row => FV.div (FV.sum row) (FV.fin (m2Elt l γr)))

/-- The NaN/Inf normalization applied to `z_avg_gated` after the final
gate: `torch.where(isnan, 0, ·)`, then `[· == inf] = float32 max`, then
`[· == -inf] = float32 min`. -/
def cleanupFV (v : FV) : FV :=
  match v with
  | FV.nan => FV.fin 0
  | w => if w = FV.inf then FV.fin f32max
         else if w = FV.ninf then FV.fin (-f32max) else w

/-- The cleaned `z_avg_gated` row of one batch element. -/
def zCleanElt (l : List FV) (γr : FV) (z : List (List FV)) : List FV :=
  (zAvg2Elt l γr z).map cleanupFV

/-- Per-batch-element gating and reduction, as executed by the source
(`l`, absolute gate, `Gamma_r`, aliased final gate, cleanup, final
LUFS `-0.691 + 10*log10((G[None,:nch] * z_avg_gated).sum(1))`). -/
def gateElt (L : ℚ → ℚ) (g : List FV) (z : List (List FV)) (nF : ℕ) :
    Except Err FV := do
  let l ← lElt L g z nF
  let γr ← gammaRElt L g l z
  let zC := zCleanElt l γr z
  let d ← bDot g zC
  pure (lufsExpr L d)

/-- Modelled from the spec's wording of Step 5 (for comparison with the
source's aliased computation): "recompute z fresh from step 2, zero out
entries where l ≤ Gamma_a or l ≤ Gamma_r, and average surviving z per
channel the same way". -/
def zAvg2SpecElt (l : List FV) (γr : FV) (z : List (List FV)) : List FV :=
  let z3 := z.map (fun row => List.zipWith (fun lv zv =>
    if FV.le lv GammaA || FV.le lv γr then FV.fin 0 else zv) l row)
  z3.map (fun row => FV.div (FV.sum row) (FV.fin (m2Elt l γr)))

/-- `gateElt` with the source's aliased final gate replaced by the
spec's fresh-`z` final gate (`zAvg2SpecElt`). -/
def gateEltSpec (L : ℚ → ℚ) (g : List FV) (z : List (List FV)) (nF : ℕ) :
    Except Err FV := do
  let l ← lElt L g z nF
  let γr ← gammaRElt L g l z
  let zC := (zAvg2SpecElt l γr z).map cleanupFV
  let d ← bDot g zC
  pure (lufsExpr L d)

/-- The dimension bookkeeping at the entry of `integrated_loudness`
(lines 131-136): a missing channel axis is appended, a missing batch
axis prepended, then `nb, nt, nch = input_data.shape` unpacks exactly
three dimensions — any other rank fails with a generic unpacking error,
not a `ShapeError`. -/
def promoteShape (shape : List ℕ) : Except Err (ℕ × ℕ × ℕ) :=
  let s1 := if shape.length < 2 then shape ++ [1] else shape
  let s2 := if s1.length < 3 then 1 :: s1 else s1
  match s2 with
  | [nb, nt, nch] => .ok (nb, nt, nch)
  | _ => .error .valueError

/-- Per-batch-element squared-window energies:
`z = (1/(T_g*rate)) * unfolded.square().sum(2)` for one element of the
unfolded tensor `(C, kernel, n_frames)`. -/
def zOfUnfolded (zscale : ℚ) (nF : ℕ) (u : List (List (List FV))) :
    List (List FV) :=
  u.map (fun chM =>
    ((List.range nF).map (fun f =>
      FV.sum ((chM.map (fun row => row.map (fun v => FV.mul v v))).map
        (fun row => row.getD f (FV.fin 0))))).map
      (fun sv => FV.mul (FV.fin zscale) sv))

/-- `Meter.integrated_loudness` on a `(nb, nt, nch)` batch, parametrized
by the final-gate implementation (the source's aliased one, or the
spec's fresh-`z` one).  `nch` is read from the shape before filtering;
the `Gamma_r` reshape/expand to `(nb, nch, n_frames)` (lines 162-163)
is legal only when the filtered batch count equals `nb` (or is 1),
which fails for the FIR strategy on multichannel input. -/
def integratedLoudnessWith
    (gate : (ℚ → ℚ) → List FV → List (List FV) → ℕ → Except Err FV)
    (L : ℚ → ℚ) (m : Meter) (cuda : Bool) (data : Sig) :
    Except Err (List FV) := do
  let nb := data.length
  let nch := ((data.headD []).headD []).length
  let filtered := applyFilter m cuda data
  let k := kernelSize m.block_size m.rate
  let s := strideSize m.block_size m.rate
  let unfolded ← meterUnfold m filtered
  let nF := nFrames ((filtered.headD []).length) k s
  let zscale : ℚ := 1 / (m.block_size * m.rate)
  let z := unfolded.map (zOfUnfolded zscale nF)
  let g := gSlice nch
  if z.length = nb ∨ z.length = 1 then
    z.mapM (fun ze => gate L g ze nF)
  else .error .expandError

/-- `Meter.integrated_loudness`, as executed by the source. -/
def integratedLoudness (L : ℚ → ℚ) (m : Meter) (cuda : Bool) (data : Sig) :
    Except Err (List FV) :=
  integratedLoudnessWith gateElt L m cuda data

/-- `integrated_loudness` with the spec's fresh-`z` final gate. -/
def integratedLoudnessSpecGate (L : ℚ → ℚ) (m : Meter) (cuda : Bool)
    (data : Sig) : Except Err (List FV) :=
  integratedLoudnessWith gateEltSpec L m cuda data

/-- `integrated_loudness` together with the meter state and the caller's
input as they stand when the call returns.  Every torch operation in the
source allocates a fresh output except the three in-place masked
assignments (lines 154, 167, 168), whose target is the tensor `z`
allocated at line 148 (modelled functionally by `zMutElt`/`zAvg2Elt`);
no statement writes to the registered buffers `G`, `firs`,
`passband_gain` or to the caller's tensor, so both are returned
unchanged. -/
def integratedLoudnessTrace (L : ℚ → ℚ) (m : Meter) (cuda : Bool)
    (data : Sig) : Except Err (List FV) × Meter × Sig :=
  (integratedLoudness L m cuda data, m, data)

/-- The signal container state seen by `LoudnessMixin.loudness`:
`audio_data` in the canonical `(nb, nch, nt)` layout, the sample rate,
and the `_loudness` cache attribute (class default `None`). -/
structure ASignal where
  audio : List (List (List FV))
  rate : ℚ
  _loudness : Option (List FV)
deriving DecidableEq

/-- `signal_length`: the number of samples (last axis of `audio_data`). -/
def signalLength (s : ASignal) : ℕ := ((s.audio.headD []).headD []).length

/-- `signal_duration = signal_length / sample_rate`. -/
def signalDuration (s : ASignal) : ℚ := (signalLength s : ℚ) / s.rate

/-- `zero_pad(0, pad_len)`: append `pad_len` zero samples to every lane. -/
def zeroPadEnd (p : ℕ) (s : ASignal) : ASignal :=
  { s with audio := s.audio.map (fun e =>
      e.map (fun lane => lane ++ List.replicate p (FV.fin 0))) }

/-- `truncate_samples(original_length)`: keep the first `n` samples of
every lane. -/
def truncateSamples (n : ℕ) (s : ASignal) : ASignal :=
  { s with audio := s.audio.map (fun e => e.map (List.take n)) }

/-- The padding step of `LoudnessMixin.loudness`: signals shorter than
0.5 s are zero-padded by `int((0.5 - duration) * sample_rate)` samples. -/
def mixinPad (s : ASignal) : ASignal :=
  if signalDuration s < 1 / 2 then
    zeroPadEnd (Int.floor ((1 / 2 - signalDuration s) * s.rate)).toNat s
  else s

/-- `audio_data.permute(0, 2, 1)`: `(nb, nch, nt)` to `(nb, nt, nch)`. -/
def permute021 (a : List (List (List FV))) : Sig :=
  a.map (fun e => transposeL e ((e.headD []).length))

/-- `MIN_LOUDNESS = -70`. -/
def MIN_LOUDNESS : FV := FV.fin (-70)

/-- `LoudnessMixin.loudness`: return the `_loudness` cache if set;
otherwise pad to 0.5 s if needed, build a meter, measure, restore the
original length, floor the result with `torch.maximum` against
`MIN_LOUDNESS`, store it in `_loudness` and return it.  The stage list
(derived externally by `pyloudnorm` from `filter_class` and the rate)
and the block size are the configuration arguments. -/
def mixinLoudness (L : ℚ → ℚ) (stages : List FilterStage) (blockSize : ℚ)
    (use_fir : Bool) (s : ASignal) : Except Err (List FV × ASignal) :=
  match s._loudness with
  | some v => .ok (v, s)
  | none =>
    let originalLength := signalLength s
    let s1 := mixinPad s
    let m : Meter := ⟨s.rate, blockSize, use_fir, stages, 512⟩
    match integratedLoudness L m false (permute021 s1.audio) with
    | .error e => .error e
    | .ok lufs =>
      let s2 := truncateSamples originalLength s1
      let res := lufs.map (fun v => FV.fmax v MIN_LOUDNESS)
      .ok (res, { s2 with _loudness := some res })

/-- Modelled from the spec: the claimed output shape of `Meter.unfold`
— block length `round(T_g × rate)`, stride
`round(block_length × (1 − overlap))` with `overlap = 0.75`, shape
`(batch, channel, n_blocks, block_length)`. -/
def specUnfoldShapeC3 (Tg rate : ℚ) (nb nt nch : ℕ) : List ℕ :=
  let blockLen := (round (Tg * rate)).toNat
  let stride := (round ((blockLen : ℚ) * (1 / 4))).toNat
  [nb, nch, (nt - blockLen) / stride + 1, blockLen]

/-- The dimensions of a rank-4 nested list, read off its leading slices
(the shape of a rectangular tensor). -/
def dims4 (u : List (List (List (List FV)))) : List ℕ :=
  [u.length, (u.headD []).length, ((u.headD []).headD []).length,
    (((u.headD []).headD []).headD []).length]

/-- Entry accessor for a rank-3 nested list (out-of-range indices give 0). -/
def get3 (x : Sig) (b t c : ℕ) : FV :=
  ((x.getD b []).getD t []).getD c (FV.fin 0)

/-- Entry accessor for a rank-4 nested list (out-of-range indices give 0). -/
def get4 (u : List (List (List (List FV)))) (b c j f : ℕ) : FV :=
  (((u.getD b []).getD c []).getD j []).getD f (FV.fin 0)

/-- A placeholder positive-branch logarithm for concrete evaluations
(the structural counterexamples below never reach the positive branch,
so any function works; the general theorems quantify over `L`). -/
def L0 : ℚ → ℚ := fun _ => 0

/-- A single pass-through stage (`b = [1]`, `a = [1]`, unit gain): its
512-tap impulse response is exact, isolating the strategy dispatch from
FIR truncation. -/
def flatStage : FilterStage := ⟨[1], [1], 1⟩

/-- Meter at rate 10 with the pass-through stage and 2 FIR taps. -/
def mC1 : Meter := ⟨10, 2 / 5, true, [flatStage], 2⟩

/-- A `(nb, nt, nch) = (1, 2, 2)` batch: two time steps of a stereo pair. -/
def xC1 : Sig := [[[FV.fin 1, FV.fin 2], [FV.fin 3, FV.fin 4]]]

/-- Meter at rate 19 (block `0.4 * 19 = 7.6` samples) for the
truncation-versus-rounding counterexample. -/
def mC3 : Meter := ⟨19, 2 / 5, false, [flatStage], 2⟩

/-- A `(1, 9, 1)` batch of zeros. -/
def xC3 : Sig := [List.replicate 9 [FV.fin 0]]

/-- Meter at rate 10 (block 4 samples, stride 1 sample). -/
def mC4 : Meter := ⟨10, 2 / 5, false, [flatStage], 2⟩

/-- A `(1, 4, 6)` batch of zeros: six channels, one gating block. -/
def xC4 : Sig := [List.replicate 4 (List.replicate 6 (FV.fin 0))]

/-- A `(1, 2, 1)` batch: one sample short of the 4-sample gating block
of `mC4`. -/
def xC5 : Sig := [[[FV.fin 1], [FV.fin 2]]]

/-- A `(1, 5, 1)` batch of digital silence: 0.5 s at rate 10. -/
def xSil : Sig := [List.replicate 5 [FV.fin 0]]

/-- The silence signal container: `(nb, nch, nt) = (1, 1, 5)` zeros at
rate 10 with an unset `_loudness` cache. -/
def sSil : ASignal := ⟨[[List.replicate 5 (FV.fin 0)]], 10, none⟩

/-- A `(2, 4, 1)` batch: one silent and one unit-valued mono signal of
4 samples, the batch whose per-element measurements are compared with
the stacked measurement. -/
def xC8 : Sig := [List.replicate 4 [FV.fin 0], List.replicate 4 [FV.fin 1]]


/-! ## Theorems -/

/-- C1: the two filter strategies are claimed numerically equivalent on
every input batch.  The source's FIR strategy never reshapes
`(nb*nch, 1, nt)` back, so on a 2-channel input it returns a batch of
`nb*nch` single-channel signals while the direct strategy returns
`nb` 2-channel signals — even for a pass-through stage whose impulse
response the FIR bank captures exactly, the outputs differ. -/
theorem c1_filter_strategies_diverge :
    applyFilterGpu mC1 xC1 ≠ applyFilterCpu mC1.stages xC1 ∧
    applyFilterGpu mC1 xC1 = [[[FV.fin 1], [FV.fin 3]], [[FV.fin 2], [FV.fin 4]]] ∧
    applyFilterCpu mC1.stages xC1 = [[[FV.fin 1, FV.fin 2], [FV.fin 3, FV.fin 4]]] := by
  refine ⟨?_, by with_unfolding_all rfl, by with_unfolding_all rfl⟩
  intro h
  have heq : ([[[FV.fin 1], [FV.fin 3]], [[FV.fin 2], [FV.fin 4]]] : Sig)
      = [[[FV.fin 1, FV.fin 2], [FV.fin 3, FV.fin 4]]] := by
    calc ([[[FV.fin 1], [FV.fin 3]], [[FV.fin 2], [FV.fin 4]]] : Sig)
        = applyFilterGpu mC1 xC1 := by with_unfolding_all rfl
      _ = applyFilterCpu mC1.stages xC1 := h
      _ = [[[FV.fin 1, FV.fin 2], [FV.fin 3, FV.fin 4]]] := by with_unfolding_all rfl
  exact absurd heq (by decide)

/-- C3 counterexample: at rate 19, block size 0.4 (`T_g·rate = 7.6`),
on a `(1, 9, 1)` input, `Meter.unfold` produces shape `(1, 1, 7, 3)`
(truncated block length 7, trailing axes `(block_length, n_blocks)`),
while the claimed `round`-based derivation with output order
`(n_blocks, block_length)` gives `(1, 1, 1, 8)`. -/
theorem c3_unfold_shape_counterexample :
    (meterUnfold mC3 xC3).map dims4 = .ok [1, 1, 7, 3] ∧
    specUnfoldShapeC3 (2 / 5) 19 1 9 1 = [1, 1, 1, 8] ∧
    ([1, 1, 7, 3] : List ℕ) ≠ [1, 1, 1, 8] :=
  ⟨by with_unfolding_all rfl, by with_unfolding_all rfl, by decide⟩

/-- C4 counterexample: no `ShapeError` is raised at entry.  A rank-4
shape passes the entry promotion and fails at the three-way unpacking
with a generic error, and a 6-channel rank-3 batch passes the entry
unharmed, is filtered, and only later fails with a broadcast error in
the gain weighting. -/
theorem c4_no_shape_error_counterexample :
    integratedLoudness L0 mC4 false xC4 = .error .broadcastError ∧
    promoteShape [2, 2, 2, 2] = .error .valueError ∧
    Err.broadcastError ≠ Err.shapeError ∧ Err.valueError ≠ Err.shapeError :=
  ⟨by with_unfolding_all rfl, by with_unfolding_all rfl, by decide, by decide⟩

/-- C5 counterexample: a `(1, 2, 1)` batch (two samples, one short of
`mC4`'s 4-sample gating block) makes `integrated_loudness` raise the
storage-bound error of the strided view instead of returning any
(all-NaN/zero) result. -/
theorem c5_short_input_counterexample :
    integratedLoudness L0 mC4 false xC5 = .error .storageError := by
  with_unfolding_all rfl

/-- Masking a row by the absolute gate twice and then by the relative
gate is one combined or-mask: the entries zeroed by the in-place
absolute-gate step are re-zeroed by the final gate anyway. -/
theorem maskLE_triple_eq_or (l : List FV) (γr : FV) (row : List FV) :
    maskLE l γr (maskLE l GammaA (maskLE l GammaA row)) =
      List.zipWith (fun lv zv =>
        if FV.le lv GammaA || FV.le lv γr then FV.fin 0 else zv) l row := by
  induction l generalizing row with
  | nil => simp [maskLE]
  | cons lv rest ih =>
    cases row with
    | nil => simp [maskLE]
    | cons zv zrest =>
      simp only [maskLE, List.zipWith_cons_cons] at *
      refine congrArg₂ _ ?_ (ih zrest)
      by_cases h1 : FV.le lv GammaA <;> by_cases h2 : FV.le lv γr <;>
        simp [h1, h2]

/-- The final-gate average computed on the aliased, already-mutated `z`
equals the spec's fresh-`z` computation. -/
theorem zAvg2Elt_eq_spec (l : List FV) (γr : FV) (z : List (List FV)) :
    zAvg2Elt l γr z = zAvg2SpecElt l γr z := by
  unfold zAvg2Elt zAvg2SpecElt zMutElt
  simp only [List.map_map]
  refine List.map_congr_left (fun row _ => ?_)
  simp only [Function.comp]
  rw [maskLE_triple_eq_or]

/-- The per-element gate with aliasing equals the spec's per-element
gate. -/
theorem gateElt_eq_gateEltSpec : gateElt = gateEltSpec := by
  funext L g z nF
  unfold gateElt gateEltSpec zCleanElt
  simp only [zAvg2Elt_eq_spec]

/-- C2: in the final gating step the result is as if the per-block
energies had been recomputed fresh: `integrated_loudness` (whose step-5
`z` is the tensor already zeroed in place by the absolute-gate step,
re-zeroed on the same mask) returns, for every input, meter, strategy
and logarithm, exactly the value of the variant that rebuilds the final
average from fresh `z` over the blocks with `l > Gamma_a` and
`l > Gamma_r`. -/
theorem c2_final_gate_equals_fresh (L : ℚ → ℚ) (m : Meter) (cuda : Bool)
    (data : Sig) :
    integratedLoudness L m cuda data = integratedLoudnessSpecGate L m cuda data := by
  unfold integratedLoudness integratedLoudnessSpecGate
  rw [gateElt_eq_gateEltSpec]

/-- C9: `integrated_loudness` leaves the meter's buffers and the
caller's input untouched, and a second call on the returned state gives
the identical result. -/
theorem c9_idempotent_no_mutation (L : ℚ → ℚ) (m : Meter) (cuda : Bool)
    (data : Sig) :
    (integratedLoudnessTrace L m cuda data).2.1 = m ∧
    (integratedLoudnessTrace L m cuda data).2.2 = data ∧
    (integratedLoudnessTrace L (integratedLoudnessTrace L m cuda data).2.1
        cuda (integratedLoudnessTrace L m cuda data).2.2).1 =
      (integratedLoudnessTrace L m cuda data).1 :=
  ⟨rfl, rfl, rfl⟩

/-- C6: after the final gate every entry of the cleaned `z_avg_gated` is
finite (NaN became 0, `±inf` became the extreme float32 magnitudes), the
value `integrated_loudness` returns for the element is the bare
`-0.691 + 10·log10(Σ_c G[c]·z_avg_gated[b,c])` with no clamping, and
whenever that gain-weighted sum is `≤ 0` the returned value is `-inf`
or `nan`. -/
theorem c6_reducer_unclamped (L : ℚ → ℚ) (g : List FV) (z : List (List FV))
    (nF : ℕ) (l : List FV) (γr : FV) (d : FV)
    (hl : lElt L g z nF = .ok l)
    (hg : gammaRElt L g l z = .ok γr)
    (hd : bDot g (zCleanElt l γr z) = .ok d) :
    (∀ v ∈ zCleanElt l γr z, ∃ q, v = FV.fin q) ∧
    gateElt L g z nF = .ok (lufsExpr L d) ∧
    (FV.le d (FV.fin 0) = true → lufsExpr L d = FV.ninf ∨ lufsExpr L d = FV.nan) := by
  refine ⟨?_, ?_, ?_⟩
  · intro v hv
    unfold zCleanElt at hv
    obtain ⟨w, _, rfl⟩ := List.mem_map.mp hv
    cases w with
    | fin q => exact ⟨q, by simp [cleanupFV]⟩
    | inf => exact ⟨f32max, by simp [cleanupFV]⟩
    | ninf => exact ⟨-f32max, by simp [cleanupFV]⟩
    | nan => exact ⟨0, by simp [cleanupFV]⟩
  · unfold gateElt
    rw [hl]
    show (gammaRElt L g l z).bind _ = _
    rw [hg]
    show (bDot g (zCleanElt l γr z)).bind _ = _
    rw [hd]
    rfl
  · intro h
    cases d with
    | fin q =>
      have hq : q ≤ 0 := by simpa [FV.le] using h
      rcases eq_or_lt_of_le hq with h0 | hneg
      · left
        simp [lufsExpr, FV.log10, h0, FV.mul, FV.add, not_lt.mpr (le_of_eq h0)]
      · right
        simp [lufsExpr, FV.log10, not_lt.mpr hq, ne_of_lt hneg, FV.mul, FV.add]
    | inf => simp [FV.le] at h
    | ninf => right; simp [lufsExpr, FV.log10, FV.mul, FV.add]
    | nan => simp [FV.le] at h

/-- Witness for C6 at a concrete silent block: the hypotheses hold with
`l = [-inf]`, `Gamma_r = nan`, `d = 0`, and the conclusion follows from
`c6_reducer_unclamped`. -/
theorem c6_reducer_unclamped_witness :
    FV.le (FV.fin 0) (FV.fin 0) = true ∧
    ((∀ v ∈ zCleanElt [FV.ninf] FV.nan [[FV.fin 0]], ∃ q, v = FV.fin q) ∧
     gateElt L0 [FV.fin 1] [[FV.fin 0]] 1 = .ok (lufsExpr L0 (FV.fin 0)) ∧
     (FV.le (FV.fin 0) (FV.fin 0) = true →
       lufsExpr L0 (FV.fin 0) = FV.ninf ∨ lufsExpr L0 (FV.fin 0) = FV.nan)) :=
  ⟨by with_unfolding_all rfl,
    c6_reducer_unclamped L0 [FV.fin 1] [[FV.fin 0]] 1 [FV.ninf] FV.nan (FV.fin 0)
      (by with_unfolding_all rfl) (by with_unfolding_all rfl)
      (by with_unfolding_all rfl)⟩

/-- C10: a first successful `loudness()` call stores the floor-clamped
measurement in `_loudness`, and any later call returns that cached value
unchanged — regardless of the filter stages, block size, `use_fir`
setting, logarithm, or any change to the audio samples. -/
theorem c10_loudness_cached (L L2 : ℚ → ℚ) (st st2 : List FilterStage)
    (bs bs2 : ℚ) (uf uf2 : Bool) (s s' : ASignal) (v : List FV)
    (audio2 : List (List (List FV)))
    (h0 : s._loudness = none)
    (h1 : mixinLoudness L st bs uf s = .ok (v, s')) :
    (∃ lufs, integratedLoudness L ⟨s.rate, bs, uf, st, 512⟩ false
        (permute021 (mixinPad s).audio) = .ok lufs ∧
      v = lufs.map (fun u => FV.fmax u MIN_LOUDNESS)) ∧
    s'._loudness = some v ∧
    mixinLoudness L2 st2 bs2 uf2 { s' with audio := audio2 } =
      .ok (v, { s' with audio := audio2 }) := by
  unfold mixinLoudness at h1
  rw [h0] at h1
  simp only at h1
  cases heq : integratedLoudness L ⟨s.rate, bs, uf, st, 512⟩ false
      (permute021 (mixinPad s).audio) with
  | error e => rw [heq] at h1; exact absurd h1 (by simp)
  | ok lufs =>
    rw [heq] at h1
    simp only [Except.ok.injEq, Prod.mk.injEq] at h1
    obtain ⟨hv, hs⟩ := h1
    refine ⟨⟨lufs, rfl, hv.symm⟩, ?_, ?_⟩
    · rw [← hs]; simpa using hv
    · unfold mixinLoudness
      have hcache : ({ s' with audio := audio2 } : ASignal)._loudness = some v := by
        rw [← hs]; simpa using hv
      rw [hcache]

/-- Witness for C10: the silence container measures to the floored
`-70`, the value is cached, and a second call with different stages,
block size, `use_fir` and replaced audio returns the cached value. -/
theorem c10_loudness_cached_witness :
    sSil._loudness = none ∧
    ((∃ lufs, integratedLoudness L0 ⟨sSil.rate, 2 / 5, false, [flatStage], 512⟩
        false (permute021 (mixinPad sSil).audio) = .ok lufs ∧
      [FV.fin (-70)] = lufs.map (fun u => FV.fmax u MIN_LOUDNESS)) ∧
    (⟨[[List.replicate 5 (FV.fin 0)]], 10, some [FV.fin (-70)]⟩ :
        ASignal)._loudness = some [FV.fin (-70)] ∧
    mixinLoudness (fun q => q) [] 1 true
        { (⟨[[List.replicate 5 (FV.fin 0)]], 10, some [FV.fin (-70)]⟩ :
            ASignal) with audio := [] } =
      .ok ([FV.fin (-70)],
        { (⟨[[List.replicate 5 (FV.fin 0)]], 10, some [FV.fin (-70)]⟩ :
            ASignal) with audio := [] })) :=
  ⟨rfl,
    c10_loudness_cached L0 (fun q => q) [flatStage] [] (2 / 5) 1 false true
      sSil ⟨[[List.replicate 5 (FV.fin 0)]], 10, some [FV.fin (-70)]⟩
      [FV.fin (-70)] [] rfl (by with_unfolding_all rfl)⟩

/-! ### List and `FV` computation helpers -/

theorem getD_replicate' {α : Type} (n i : ℕ) (a d : α) :
    (List.replicate n a).getD i d = if i < n then a else d := by
  by_cases h : i < n <;>
    simp [List.getD_eq_getElem?_getD, List.getElem?_replicate, h]

theorem getD_range_map {α : Type} (f : ℕ → α) (n i : ℕ) (d : α) :
    ((List.range n).map f).getD i d = if i < n then f i else d := by
  by_cases h : i < n
  · simp [List.getD_eq_getElem?_getD, List.getElem?_map, List.getElem?_range, h]
  · have hn : ((List.range n).map f)[i]? = none :=
      List.getElem?_eq_none (by simpa using h)
    simp [List.getD_eq_getElem?_getD, hn, h]

theorem getD_map_of_lt {α β : Type} (g : α → β) (l : List α) (b : ℕ)
    (hb : b < l.length) (d : β) (d' : α) :
    (l.map g).getD b d = g (l.getD b d') := by
  have hb' : b < (l.map g).length := by simpa using hb
  rw [List.getD_eq_getElem _ _ hb', List.getElem_map, List.getD_eq_getElem _ _ hb]

theorem headD_replicate {α : Type} (n : ℕ) (a d : α) (h : 1 ≤ n) :
    (List.replicate n a).headD d = a := by
  cases n with
  | zero => omega
  | succ k => simp [List.replicate_succ]

theorem transposeL_replicate (nt nch c : ℕ) :
    transposeL (List.replicate nt (List.replicate nch (FV.fin 0))) c =
      List.replicate c (List.replicate nt (FV.fin 0)) := by
  unfold transposeL
  have h : ∀ j : ℕ,
      (List.replicate nt (List.replicate nch (FV.fin 0))).map
        (fun row => row.getD j (FV.fin 0)) = List.replicate nt (FV.fin 0) := by
    intro j
    rw [List.map_replicate, getD_replicate']
    by_cases hj : j < nch <;> simp [hj]
  calc (List.range c).map (fun j =>
        (List.replicate nt (List.replicate nch (FV.fin 0))).map
          (fun row => row.getD j (FV.fin 0)))
      = (List.range c).map (fun _ => List.replicate nt (FV.fin 0)) :=
        List.map_congr_left (fun j _ => h j)
    _ = List.replicate c (List.replicate nt (FV.fin 0)) := by
        simp [List.map_const']

theorem fv_add_zero_zero : FV.add (FV.fin 0) (FV.fin 0) = FV.fin 0 := by
  simp [FV.add]

theorem fv_mul_fin_zero (q : ℚ) : FV.mul (FV.fin q) (FV.fin 0) = FV.fin 0 := by
  simp [FV.mul]

theorem fv_mul_nan_left (v : FV) : FV.mul FV.nan v = FV.nan := by
  cases v <;> rfl

theorem fv_add_fin_nan (q : ℚ) : FV.add (FV.fin q) FV.nan = FV.nan := rfl

theorem fv_div_zero_zero : FV.div (FV.fin 0) (FV.fin 0) = FV.nan := by
  simp [FV.div]

theorem sum_replicate_zero (n : ℕ) :
    FV.sum (List.replicate n (FV.fin 0)) = FV.fin 0 := by
  induction n with
  | zero => rfl
  | succ k ih =>
    rw [List.replicate_succ]
    show (List.replicate k (FV.fin 0)).foldl FV.add
      (FV.add (FV.fin 0) (FV.fin 0)) = FV.fin 0
    rw [fv_add_zero_zero]
    exact ih

theorem sum_replicate_nan (n : ℕ) (h : 1 ≤ n) :
    FV.sum (List.replicate n FV.nan) = FV.nan := by
  have haux : ∀ m, (List.replicate m FV.nan).foldl FV.add FV.nan = FV.nan := by
    intro m
    induction m with
    | zero => rfl
    | succ p ih => rw [List.replicate_succ]; exact ih
  cases n with
  | zero => omega
  | succ k =>
    rw [List.replicate_succ]
    show (List.replicate k FV.nan).foldl FV.add
      (FV.add (FV.fin 0) FV.nan) = FV.nan
    rw [fv_add_fin_nan]
    exact haux k

theorem sum_congr_zero (l : List FV) (h : ∀ v ∈ l, v = FV.fin 0) :
    FV.sum l = FV.fin 0 := by
  have : l = List.replicate l.length (FV.fin 0) := List.eq_replicate_of_mem h
  rw [this, sum_replicate_zero]

theorem foldl_append_length {α : Type} (step : List α → ℕ → α) (l : List ℕ)
    (ys : List α) :
    (l.foldl (fun ys n => ys ++ [step ys n]) ys).length = ys.length + l.length := by
  induction l generalizing ys with
  | nil => simp
  | cons n t ih =>
    simp only [List.foldl_cons]
    rw [ih]
    simp
    omega

theorem foldl_append_mem {α : Type} (step : List α → ℕ → α) (P : α → Prop)
    (l : List ℕ) (ys : List α) (hys : ∀ y ∈ ys, P y)
    (hstep : ∀ zs n, (∀ z ∈ zs, P z) → P (step zs n)) :
    ∀ y ∈ l.foldl (fun ys n => ys ++ [step ys n]) ys, P y := by
  induction l generalizing ys with
  | nil => exact hys
  | cons n t ih =>
    simp only [List.foldl_cons]
    apply ih
    intro y hy
    rcases List.mem_append.mp hy with h | h
    · exact hys y h
    · rcases List.mem_singleton.mp h with rfl
      exact hstep ys n hys

theorem getD_all_zero (zs : List FV) (h : ∀ z ∈ zs, z = FV.fin 0) (i : ℕ) :
    zs.getD i (FV.fin 0) = FV.fin 0 := by
  by_cases hi : i < zs.length
  · rw [List.getD_eq_getElem _ _ hi]
    exact h _ (List.getElem_mem hi)
  · simp [List.getD_eq_getElem?_getD, List.getElem?_eq_none (by omega : zs.length ≤ i)]

/-- The recursive filter maps digital silence to digital silence (for a
normalizable leading denominator coefficient). -/
theorem lfilterFV_zeros (bc ac : List ℚ) (h : ac.headD 1 ≠ 0) (n : ℕ) :
    lfilterFV bc ac (List.replicate n (FV.fin 0)) =
      List.replicate n (FV.fin 0) := by
  unfold lfilterFV
  rw [List.length_replicate]
  have hstep : ∀ (zs : List FV) (m : ℕ), (∀ z ∈ zs, z = FV.fin 0) →
      (FV.div (FV.add
        (FV.sum ((List.range bc.length).map (fun k =>
          if k ≤ m then FV.mul (FV.fin (bc.getD k 0))
            ((List.replicate n (FV.fin 0)).getD (m - k) (FV.fin 0))
          else FV.fin 0)))
        (FV.mul (FV.fin (-1))
          (FV.sum ((List.range ac.length).map (fun k =>
            if 1 ≤ k ∧ k ≤ m then FV.mul (FV.fin (ac.getD k 0))
              (zs.getD (m - k) (FV.fin 0))
            else FV.fin 0)))))
        (FV.fin (ac.headD 1))) = FV.fin 0 := by
    intro zs m hzs
    have hx : FV.sum ((List.range bc.length).map (fun k =>
        if k ≤ m then FV.mul (FV.fin (bc.getD k 0))
          ((List.replicate n (FV.fin 0)).getD (m - k) (FV.fin 0))
        else FV.fin 0)) = FV.fin 0 := by
      apply sum_congr_zero
      intro v hv
      obtain ⟨k, _, rfl⟩ := List.mem_map.mp hv
      by_cases hk : k ≤ m
      · rw [if_pos hk, getD_replicate']
        split_ifs <;> simp [fv_mul_fin_zero]
      · rw [if_neg hk]
    have hy : FV.sum ((List.range ac.length).map (fun k =>
        if 1 ≤ k ∧ k ≤ m then FV.mul (FV.fin (ac.getD k 0))
          (zs.getD (m - k) (FV.fin 0))
        else FV.fin 0)) = FV.fin 0 := by
      apply sum_congr_zero
      intro v hv
      obtain ⟨k, _, rfl⟩ := List.mem_map.mp hv
      by_cases hk : 1 ≤ k ∧ k ≤ m
      · rw [if_pos hk, getD_all_zero zs hzs, fv_mul_fin_zero]
      · rw [if_neg hk]
    rw [hx, hy, fv_mul_fin_zero, fv_add_zero_zero]
    simp only [FV.div]
    rw [if_pos h]
    simp
  have hlen := foldl_append_length (fun zs m =>
    FV.div (FV.add
      (FV.sum ((List.range bc.length).map (fun k =>
        if k ≤ m then FV.mul (FV.fin (bc.getD k 0))
          ((List.replicate n (FV.fin 0)).getD (m - k) (FV.fin 0))
        else FV.fin 0)))
      (FV.mul (FV.fin (-1))
        (FV.sum ((List.range ac.length).map (fun k =>
          if 1 ≤ k ∧ k ≤ m then FV.mul (FV.fin (ac.getD k 0))
            (zs.getD (m - k) (FV.fin 0))
          else FV.fin 0)))))
      (FV.fin (ac.headD 1))) (List.range n) []
  have hmem := foldl_append_mem (fun zs m =>
    FV.div (FV.add
      (FV.sum ((List.range bc.length).map (fun k =>
        if k ≤ m then FV.mul (FV.fin (bc.getD k 0))
          ((List.replicate n (FV.fin 0)).getD (m - k) (FV.fin 0))
        else FV.fin 0)))
      (FV.mul (FV.fin (-1))
        (FV.sum ((List.range ac.length).map (fun k =>
          if 1 ≤ k ∧ k ≤ m then FV.mul (FV.fin (ac.getD k 0))
            (zs.getD (m - k) (FV.fin 0))
          else FV.fin 0)))))
      (FV.fin (ac.headD 1))) (fun v => v = FV.fin 0) (List.range n) []
    (by simp) (fun zs m hzs => hstep zs m hzs)
  exact List.eq_replicate_iff.mpr ⟨by simpa using hlen, hmem⟩

/-- One direct-strategy stage maps a silent batch element to itself. -/
theorem cpuStage_zeros (st : FilterStage) (h : st.a.headD 1 ≠ 0)
    (nt nch : ℕ) (hnt : 1 ≤ nt) (hnch : 1 ≤ nch) :
    cpuStage st (List.replicate nt (List.replicate nch (FV.fin 0))) =
      List.replicate nt (List.replicate nch (FV.fin 0)) := by
  unfold cpuStage
  rw [headD_replicate _ _ _ hnt, List.length_replicate, transposeL_replicate]
  dsimp only
  rw [List.map_replicate, lfilterFV_zeros _ _ h]
  rw [headD_replicate _ _ _ hnch, List.length_replicate, transposeL_replicate]
  rw [List.map_replicate, List.map_replicate, fv_mul_fin_zero]

/-- The whole direct-strategy filter maps a silent batch to itself. -/
theorem applyFilterCpu_zeros (stages : List FilterStage)
    (hst : ∀ st ∈ stages, st.a.headD 1 ≠ 0)
    (nb nt nch : ℕ) (hnt : 1 ≤ nt) (hnch : 1 ≤ nch) :
    applyFilterCpu stages
        (List.replicate nb (List.replicate nt (List.replicate nch (FV.fin 0)))) =
      List.replicate nb (List.replicate nt (List.replicate nch (FV.fin 0))) := by
  unfold applyFilterCpu
  induction stages with
  | nil => rfl
  | cons st rest ih =>
    simp only [List.foldl_cons]
    rw [List.map_replicate, cpuStage_zeros st (hst st (by simp)) nt nch hnt hnch]
    exact ih (fun s hs => hst s (by simp [hs]))

theorem gSlice_length (nch : ℕ) (h : nch ≤ 5) : (gSlice nch).length = nch := by
  simp [gSlice, Gvec]
  omega

theorem gSlice_fin (nch : ℕ) : ∀ v ∈ gSlice nch, ∃ q, v = FV.fin q := by
  intro v hv
  obtain ⟨q, _, rfl⟩ := List.mem_map.mp hv
  exact ⟨q, rfl⟩

theorem zipWith_mul_fin_zero (g : List FV) (hg : ∀ v ∈ g, ∃ q, v = FV.fin q) :
    List.zipWith FV.mul g (List.replicate g.length (FV.fin 0)) =
      List.replicate g.length (FV.fin 0) := by
  induction g with
  | nil => rfl
  | cons v rest ih =>
    obtain ⟨q, rfl⟩ := hg v (by simp)
    simp only [List.length_cons, List.replicate_succ, List.zipWith_cons_cons]
    rw [fv_mul_fin_zero, ih (fun w hw => hg w (by simp [hw]))]

theorem zipWith_mul_nan_left (g : List FV) :
    List.zipWith FV.mul (List.replicate g.length FV.nan) g =
      List.replicate g.length FV.nan := by
  induction g with
  | nil => rfl
  | cons v rest ih =>
    simp only [List.length_cons, List.replicate_succ, List.zipWith_cons_cons]
    rw [fv_mul_nan_left, ih]

theorem lufsExpr_zero (L : ℚ → ℚ) : lufsExpr L (FV.fin 0) = FV.ninf := by
  have h10 : ¬ ((0 : ℚ) < 0) := by norm_num
  simp [lufsExpr, FV.log10, FV.mul, FV.add, h10]

theorem lufsExpr_nan (L : ℚ → ℚ) : lufsExpr L FV.nan = FV.nan := rfl

theorem dotRaw_fin_zero (g : List FV) (hg : ∀ v ∈ g, ∃ q, v = FV.fin q) :
    dotRaw g (List.replicate g.length (FV.fin 0)) = FV.fin 0 := by
  unfold dotRaw
  rw [if_pos (by simp), zipWith_mul_fin_zero g hg, sum_replicate_zero]

theorem dotRaw_fin_zero' (g : List FV) (n : ℕ) (hn : g.length = n)
    (hg : ∀ v ∈ g, ∃ q, v = FV.fin q) :
    dotRaw g (List.replicate n (FV.fin 0)) = FV.fin 0 := by
  subst hn
  exact dotRaw_fin_zero g hg

theorem zipWith_mul_nan_left' (g : List FV) (n : ℕ) (hn : g.length = n) :
    List.zipWith FV.mul (List.replicate n FV.nan) g = List.replicate n FV.nan := by
  subst hn
  exact zipWith_mul_nan_left g

theorem lElt_zeros (L : ℚ → ℚ) (nch nF : ℕ) (h5 : nch ≤ 5) :
    lElt L (gSlice nch)
        (List.replicate nch (List.replicate nF (FV.fin 0))) nF =
      .ok (List.replicate nF FV.ninf) := by
  have hcol : ∀ f : ℕ,
      dotRaw (gSlice nch)
        ((List.replicate nch (List.replicate nF (FV.fin 0))).map
          (fun row => row.getD f (FV.fin 0))) = FV.fin 0 := by
    intro f
    rw [List.map_replicate, getD_replicate']
    have hz : (if f < nF then FV.fin 0 else FV.fin 0) = FV.fin 0 := by
      split <;> rfl
    rw [hz]
    exact dotRaw_fin_zero' _ _ (gSlice_length nch h5) (gSlice_fin nch)
  unfold lElt bMulSum
  rw [if_pos (by simp [bcOk, gSlice_length nch h5])]
  have hcols : (List.range nF).map (fun f =>
      dotRaw (gSlice nch)
        ((List.replicate nch (List.replicate nF (FV.fin 0))).map
          (fun row => row.getD f (FV.fin 0)))) = List.replicate nF (FV.fin 0) := by
    rw [List.map_congr_left (fun f _ => hcol f), List.map_const', List.length_range]
  show Except.ok (List.map (lufsExpr L) _) = _
  rw [hcols, List.map_replicate, lufsExpr_zero]

theorem m1Elt_ninf (nF : ℕ) : m1Elt (List.replicate nF FV.ninf) = 0 := by
  unfold m1Elt
  rw [List.countP_eq_zero]
  intro a ha
  rw [List.eq_of_mem_replicate ha]
  simp [FV.lt, GammaA]

theorem maskLE_ninf_zeros (nF : ℕ) (γ : FV) :
    maskLE (List.replicate nF FV.ninf) γ (List.replicate nF (FV.fin 0)) =
      List.replicate nF (FV.fin 0) := by
  unfold maskLE
  rw [List.zipWith_replicate']
  split <;> rfl

theorem zMutElt_zeros (nch nF : ℕ) :
    zMutElt (List.replicate nF FV.ninf)
        (List.replicate nch (List.replicate nF (FV.fin 0))) =
      List.replicate nch (List.replicate nF (FV.fin 0)) := by
  unfold zMutElt
  rw [List.map_replicate, maskLE_ninf_zeros]

theorem zAvg1Elt_zeros (nch nF : ℕ) :
    zAvg1Elt (List.replicate nF FV.ninf)
        (List.replicate nch (List.replicate nF (FV.fin 0))) =
      List.replicate nch FV.nan := by
  unfold zAvg1Elt
  rw [zMutElt_zeros, m1Elt_ninf, List.map_replicate, sum_replicate_zero]
  norm_num [fv_div_zero_zero]

theorem gammaRElt_zeros (L : ℚ → ℚ) (nch nF : ℕ) (h1 : 1 ≤ nch) (h5 : nch ≤ 5) :
    gammaRElt L (gSlice nch) (List.replicate nF FV.ninf)
        (List.replicate nch (List.replicate nF (FV.fin 0))) = .ok FV.nan := by
  unfold gammaRElt bDot
  rw [zAvg1Elt_zeros]
  rw [if_pos (by simp [bcOk, gSlice_length nch h5])]
  unfold dotRaw
  rw [if_pos (by simp [gSlice_length nch h5])]
  rw [zipWith_mul_nan_left' _ _ (gSlice_length nch h5), sum_replicate_nan _ h1]
  rfl

theorem m2Elt_ninf (nF : ℕ) : m2Elt (List.replicate nF FV.ninf) FV.nan = 0 := by
  unfold m2Elt
  rw [List.countP_eq_zero]
  intro a ha
  rw [List.eq_of_mem_replicate ha]
  simp [FV.lt, GammaA]

theorem zAvg2Elt_zeros (nch nF : ℕ) :
    zAvg2Elt (List.replicate nF FV.ninf) FV.nan
        (List.replicate nch (List.replicate nF (FV.fin 0))) =
      List.replicate nch FV.nan := by
  unfold zAvg2Elt
  rw [zMutElt_zeros]
  dsimp only
  rw [List.map_replicate, maskLE_ninf_zeros, List.map_replicate,
    maskLE_ninf_zeros, m2Elt_ninf, List.map_replicate, sum_replicate_zero]
  norm_num [fv_div_zero_zero]

theorem zCleanElt_zeros (nch nF : ℕ) :
    zCleanElt (List.replicate nF FV.ninf) FV.nan
        (List.replicate nch (List.replicate nF (FV.fin 0))) =
      List.replicate nch (FV.fin 0) := by
  unfold zCleanElt
  rw [zAvg2Elt_zeros, List.map_replicate]
  rfl

theorem gateElt_zeros (L : ℚ → ℚ) (nch nF : ℕ) (h1 : 1 ≤ nch) (h5 : nch ≤ 5) :
    gateElt L (gSlice nch)
        (List.replicate nch (List.replicate nF (FV.fin 0))) nF = .ok FV.ninf := by
  unfold gateElt
  rw [lElt_zeros L nch nF h5]
  show (gammaRElt L (gSlice nch) (List.replicate nF FV.ninf) _).bind _ = _
  rw [gammaRElt_zeros L nch nF h1 h5]
  show (bDot (gSlice nch) (zCleanElt _ _ _)).bind _ = _
  rw [zCleanElt_zeros]
  unfold bDot
  rw [if_pos (by simp [bcOk, gSlice_length nch h5])]
  show Except.ok (lufsExpr L (dotRaw _ _)) = _
  rw [dotRaw_fin_zero' _ _ (gSlice_length nch h5) (gSlice_fin nch), lufsExpr_zero]

theorem unfoldElt_zeros (nt k s nch : ℕ) (hnt : 1 ≤ nt) :
    unfoldElt nt k s (List.replicate nt (List.replicate nch (FV.fin 0))) =
      List.replicate nch
        (List.replicate k (List.replicate (nFrames nt k s) (FV.fin 0))) := by
  unfold unfoldElt
  rw [headD_replicate _ _ _ hnt, List.length_replicate, transposeL_replicate,
    List.map_replicate]
  have hframe : (List.range (nFrames nt k s)).map (fun f =>
      (List.range k).map (fun j =>
        (List.replicate nt (FV.fin 0)).getD (f * s + j) (FV.fin 0))) =
      List.replicate (nFrames nt k s) (List.replicate k (FV.fin 0)) := by
    have hinner : ∀ f : ℕ, (List.range k).map (fun j =>
        (List.replicate nt (FV.fin 0)).getD (f * s + j) (FV.fin 0)) =
        List.replicate k (FV.fin 0) := by
      intro f
      have : ∀ j ∈ List.range k,
          (List.replicate nt (FV.fin 0)).getD (f * s + j) (FV.fin 0) = FV.fin 0 := by
        intro j _
        rw [getD_replicate']
        split <;> rfl
      rw [List.map_congr_left this, List.map_const', List.length_range]
    rw [List.map_congr_left (fun f _ => hinner f), List.map_const', List.length_range]
  rw [hframe, transposeL_replicate]

theorem zOfUnfolded_zeros (zscale : ℚ) (nF k nch : ℕ) :
    zOfUnfolded zscale nF
        (List.replicate nch (List.replicate k (List.replicate nF (FV.fin 0)))) =
      List.replicate nch (List.replicate nF (FV.fin 0)) := by
  unfold zOfUnfolded
  rw [List.map_replicate]
  have hsq : (List.replicate k (List.replicate nF (FV.fin 0))).map
      (fun row => row.map (fun v => FV.mul v v)) =
      List.replicate k (List.replicate nF (FV.fin 0)) := by
    rw [List.map_replicate, List.map_replicate, fv_mul_fin_zero]
  rw [hsq]
  have hcols : (List.range nF).map (fun f =>
      FV.sum ((List.replicate k (List.replicate nF (FV.fin 0))).map
        (fun row => row.getD f (FV.fin 0)))) = List.replicate nF (FV.fin 0) := by
    have hone : ∀ f : ℕ,
        FV.sum ((List.replicate k (List.replicate nF (FV.fin 0))).map
          (fun row => row.getD f (FV.fin 0))) = FV.fin 0 := by
      intro f
      rw [List.map_replicate, getD_replicate']
      have hz : (if f < nF then FV.fin 0 else FV.fin 0) = FV.fin 0 := by
        split <;> rfl
      rw [hz, sum_replicate_zero]
    rw [List.map_congr_left (fun f _ => hone f), List.map_const', List.length_range]
  rw [hcols, List.map_replicate, fv_mul_fin_zero]

theorem mapM_replicate_ok {α β ε : Type} (f : α → Except ε β) (a : α) (v : β)
    (h : f a = .ok v) (n : ℕ) :
    (List.replicate n a).mapM f = .ok (List.replicate n v) := by
  induction n with
  | zero => rfl
  | succ k ih =>
    rw [List.replicate_succ, List.mapM_cons, h, ih, List.replicate_succ]
    rfl

theorem tgtLength_le (nt k s : ℕ) (hk : k ≤ nt) : tgtLength nt k s ≤ nt := by
  unfold tgtLength nFrames
  rw [max_eq_left hk]
  simp only [Nat.add_sub_cancel]
  have hdm := Nat.div_mul_le_self (nt - k) s
  omega


/-- `Meter.unfold` on digital silence: all windows are zero. -/
theorem meterUnfold_zeros (m : Meter) (nb nt nch : ℕ)
    (hnb : 1 ≤ nb) (hnt : 1 ≤ nt)
    (hs : 1 ≤ strideSize m.block_size m.rate)
    (hk : kernelSize m.block_size m.rate ≤ nt) :
    meterUnfold m
        (List.replicate nb (List.replicate nt (List.replicate nch (FV.fin 0)))) =
      .ok (List.replicate nb (List.replicate nch (List.replicate
        (kernelSize m.block_size m.rate)
        (List.replicate
          (nFrames nt (kernelSize m.block_size m.rate)
            (strideSize m.block_size m.rate)) (FV.fin 0))))) := by
  unfold meterUnfold unfoldSig
  rw [headD_replicate _ _ _ hnb, List.length_replicate]
  rw [if_neg (by omega : ¬ (strideSize m.block_size m.rate = 0)),
    if_neg (not_lt.mpr (tgtLength_le _ _ _ hk))]
  rw [List.map_replicate, unfoldElt_zeros _ _ _ _ hnt]

/-- `integrated_loudness` on digital silence: every batch element
measures `-inf` (before the caller's floor). -/
theorem integratedLoudness_zeros (L : ℚ → ℚ) (stages : List FilterStage)
    (hst : ∀ st ∈ stages, st.a.headD 1 ≠ 0) (rate Tg : ℚ)
    (zeros nb nt nch : ℕ)
    (hnb : 1 ≤ nb) (hnt : 1 ≤ nt) (hnch : 1 ≤ nch) (h5 : nch ≤ 5)
    (hs : 1 ≤ strideSize Tg rate) (hk : kernelSize Tg rate ≤ nt) :
    integratedLoudness L ⟨rate, Tg, false, stages, zeros⟩ false
        (List.replicate nb (List.replicate nt (List.replicate nch (FV.fin 0)))) =
      .ok (List.replicate nb FV.ninf) := by
  have hfilt : applyFilter ⟨rate, Tg, false, stages, zeros⟩ false
      (List.replicate nb (List.replicate nt (List.replicate nch (FV.fin 0)))) =
      List.replicate nb (List.replicate nt (List.replicate nch (FV.fin 0))) := by
    show applyFilterCpu stages _ = _
    exact applyFilterCpu_zeros stages hst nb nt nch hnt hnch
  have hhead1 : (List.replicate nb
      (List.replicate nt (List.replicate nch (FV.fin 0)))).headD [] =
      List.replicate nt (List.replicate nch (FV.fin 0)) :=
    headD_replicate _ _ _ hnb
  have hunf := meterUnfold_zeros ⟨rate, Tg, false, stages, zeros⟩ nb nt nch
    hnb hnt hs hk
  have hbind : ∀ {α β : Type} (a : α) (f : α → Except Err β),
      (Except.ok a >>= f) = f a := fun _ _ => rfl
  unfold integratedLoudness integratedLoudnessWith
  rw [hfilt]
  simp only []
  rw [hunf, hbind]
  simp only []
  rw [hhead1, headD_replicate _ _ _ hnt, List.length_replicate,
    List.length_replicate, List.map_replicate, zOfUnfolded_zeros]
  rw [List.length_replicate, List.length_replicate]
  rw [if_pos (Or.inl rfl)]
  exact mapM_replicate_ok
    (fun ze => gateElt L (gSlice nch) ze
      (nFrames nt (kernelSize Tg rate) (strideSize Tg rate)))
    (List.replicate nch (List.replicate
      (nFrames nt (kernelSize Tg rate) (strideSize Tg rate)) (FV.fin 0)))
    FV.ninf
    (gateElt_zeros L nch (nFrames nt (kernelSize Tg rate) (strideSize Tg rate))
      hnch h5) nb

/-- C7: for every all-zero signal of exactly 0.5 s duration (any rate
at least 10 Hz, 1-5 channels, any batch size, any stage list with
normalizable denominators), the cleaned gated per-channel averages are
all 0, `integrated_loudness` returns `-inf` for every batch element,
and `LoudnessMixin.loudness` floors the stored and returned result to
exactly `-70` LUFS. -/
theorem c7_silence_loudness_floor (L : ℚ → ℚ) (stages : List FilterStage)
    (hst : ∀ st ∈ stages, st.a.headD 1 ≠ 0)
    (rate : ℚ) (nb nt nch : ℕ)
    (hnb : 1 ≤ nb) (hnch : 1 ≤ nch) (h5 : nch ≤ 5)
    (hnt : (nt : ℚ) * 2 = rate) (hrate : 10 ≤ rate) :
    zCleanElt
        (List.replicate (nFrames nt (kernelSize (2 / 5) rate)
          (strideSize (2 / 5) rate)) FV.ninf) FV.nan
        (List.replicate nch (List.replicate
          (nFrames nt (kernelSize (2 / 5) rate) (strideSize (2 / 5) rate))
          (FV.fin 0))) =
      List.replicate nch (FV.fin 0) ∧
    integratedLoudness L ⟨rate, 2 / 5, false, stages, 512⟩ false
        (permute021 (List.replicate nb
          (List.replicate nch (List.replicate nt (FV.fin 0))))) =
      .ok (List.replicate nb FV.ninf) ∧
    mixinLoudness L stages (2 / 5) false
        ⟨List.replicate nb (List.replicate nch (List.replicate nt (FV.fin 0))),
          rate, none⟩ =
      .ok (List.replicate nb (FV.fin (-70)),
        ⟨List.replicate nb (List.replicate nch (List.replicate nt (FV.fin 0))),
          rate, some (List.replicate nb (FV.fin (-70)))⟩) := by
  have hnt5 : 5 ≤ nt := by
    have h5q : (5 : ℚ) ≤ (nt : ℚ) := by linarith
    exact_mod_cast h5q
  have hnt1 : 1 ≤ nt := by omega
  have hs : 1 ≤ strideSize (2 / 5) rate := by
    unfold strideSize
    have hfl : (1 : ℤ) ≤ Int.floor (2 / 5 * rate * (1 / 4)) := by
      rw [Int.le_floor]
      push_cast
      linarith
    omega
  have hk : kernelSize (2 / 5) rate ≤ nt := by
    unfold kernelSize
    have hle : (2 / 5 * rate : ℚ) ≤ (nt : ℚ) := by
      have : (0 : ℚ) ≤ (nt : ℚ) := by positivity
      linarith
    have hfl : Int.floor (2 / 5 * rate : ℚ) ≤ (nt : ℤ) := by
      calc Int.floor (2 / 5 * rate : ℚ) ≤ Int.floor ((nt : ℚ)) :=
            Int.floor_le_floor hle
        _ = (nt : ℤ) := Int.floor_natCast nt
    omega
  have hperm : permute021 (List.replicate nb
      (List.replicate nch (List.replicate nt (FV.fin 0)))) =
      List.replicate nb (List.replicate nt (List.replicate nch (FV.fin 0))) := by
    unfold permute021
    rw [List.map_replicate, headD_replicate _ _ _ hnch, List.length_replicate,
      transposeL_replicate]
  have hil := integratedLoudness_zeros L stages hst rate (2 / 5) 512 nb nt nch
    hnb hnt1 hnch h5 hs hk
  refine ⟨zCleanElt_zeros nch _, by rw [hperm]; exact hil, ?_⟩
  unfold mixinLoudness
  simp only []
  have hlen : signalLength ⟨List.replicate nb
      (List.replicate nch (List.replicate nt (FV.fin 0))), rate, none⟩ = nt := by
    unfold signalLength
    simp only []
    rw [headD_replicate _ _ _ hnb, headD_replicate _ _ _ hnch,
      List.length_replicate]
  have hpad : mixinPad ⟨List.replicate nb
      (List.replicate nch (List.replicate nt (FV.fin 0))), rate, none⟩ =
      ⟨List.replicate nb (List.replicate nch (List.replicate nt (FV.fin 0))),
        rate, none⟩ := by
    unfold mixinPad signalDuration
    rw [hlen]
    rw [if_neg]
    push_neg
    show (1 : ℚ) / 2 ≤ (nt : ℚ) / rate
    rw [le_div_iff₀ (by linarith : (0:ℚ) < rate)]
    linarith
  rw [hpad]
  simp only []
  rw [hperm, hil]
  simp only []
  have htr : truncateSamples nt (⟨List.replicate nb
      (List.replicate nch (List.replicate nt (FV.fin 0))), rate, none⟩ : ASignal) =
      ⟨List.replicate nb (List.replicate nch (List.replicate nt (FV.fin 0))),
        rate, none⟩ := by
    unfold truncateSamples
    simp [List.take_replicate]
  rw [hlen, htr]
  have hres : (List.replicate nb FV.ninf).map (fun v => FV.fmax v MIN_LOUDNESS) =
      List.replicate nb (FV.fin (-70)) := by
    rw [List.map_replicate]
    rfl
  rw [hres]

/-- Witness for C7 at rate 10, one channel, one batch element, five
zero samples (0.5 s). -/
theorem c7_silence_loudness_floor_witness :
    (∀ st ∈ [flatStage], st.a.headD 1 ≠ 0) ∧
    (zCleanElt
        (List.replicate (nFrames 5 (kernelSize (2 / 5) 10)
          (strideSize (2 / 5) 10)) FV.ninf) FV.nan
        (List.replicate 1 (List.replicate
          (nFrames 5 (kernelSize (2 / 5) 10) (strideSize (2 / 5) 10))
          (FV.fin 0))) =
      List.replicate 1 (FV.fin 0) ∧
    integratedLoudness L0 ⟨10, 2 / 5, false, [flatStage], 512⟩ false
        (permute021 (List.replicate 1
          (List.replicate 1 (List.replicate 5 (FV.fin 0))))) =
      .ok (List.replicate 1 FV.ninf) ∧
    mixinLoudness L0 [flatStage] (2 / 5) false
        ⟨List.replicate 1 (List.replicate 1 (List.replicate 5 (FV.fin 0))),
          10, none⟩ =
      .ok (List.replicate 1 (FV.fin (-70)),
        ⟨List.replicate 1 (List.replicate 1 (List.replicate 5 (FV.fin 0))),
          10, some (List.replicate 1 (FV.fin (-70)))⟩)) :=
  ⟨by intro st hst; simp at hst; subst hst; simp [flatStage],
    c7_silence_loudness_floor L0 [flatStage]
      (by intro st hst; simp at hst; subst hst; simp [flatStage])
      10 1 5 1 (by norm_num) (by norm_num) (by norm_num)
      (by norm_num) (by norm_num)⟩

theorem transposeL_length (m : List (List FV)) (c : ℕ) :
    (transposeL m c).length = c := by
  simp [transposeL]

theorem transposeL_getD (m : List (List FV)) (c j : ℕ) (hj : j < c) :
    (transposeL m c).getD j [] = m.map (fun row => row.getD j (FV.fin 0)) := by
  unfold transposeL
  rw [getD_range_map, if_pos hj]

theorem transposeL_row_length (m : List (List FV)) (c : ℕ) :
    ∀ r ∈ transposeL m c, r.length = m.length := by
  intro r hr
  obtain ⟨j, _, rfl⟩ := List.mem_map.mp hr
  simp

theorem getD_mem_of_lt {α : Type} (l : List α) (i : ℕ) (d : α)
    (h : i < l.length) : l.getD i d ∈ l := by
  rw [List.getD_eq_getElem _ _ h]
  exact List.getElem_mem h

/-- C3 (amended): `Meter.unfold` truncates (`int`, not `round`) the
products `T_g·rate` and `T_g·rate·0.25` for the block length and
stride, slides a window over the time axis dropping any final partial
block, and outputs shape `(batch, channel, block_length, n_blocks)` —
the last two axes in the opposite order of the claim — with
`u[b][c][j][f] = x[b][f·stride + j][c]`. -/
theorem c3_unfold_truncated_layout (m : Meter) (x : Sig) (nb nt nch : ℕ)
    (hx : Rect3 x nb nt nch) (hnb : 1 ≤ nb) (hnt : 1 ≤ nt)
    (hs : 1 ≤ strideSize m.block_size m.rate)
    (hk : kernelSize m.block_size m.rate ≤ nt) :
    ∃ u, meterUnfold m x = .ok u ∧
      u.length = nb ∧
      (∀ e ∈ u, e.length = nch ∧
        (∀ c ∈ e, c.length = kernelSize m.block_size m.rate ∧
          ∀ r ∈ c, r.length = nFrames nt (kernelSize m.block_size m.rate)
            (strideSize m.block_size m.rate))) ∧
      (∀ b c j f, b < nb → c < nch → j < kernelSize m.block_size m.rate →
        f < nFrames nt (kernelSize m.block_size m.rate)
          (strideSize m.block_size m.rate) →
        get4 u b c j f =
          get3 x b (f * strideSize m.block_size m.rate + j) c) := by
  obtain ⟨hxlen, hxel⟩ := hx
  have hhead : (x.headD []).length = nt := by
    cases x with
    | nil => simp at hxlen; omega
    | cons e0 rest => exact (hxel e0 (by simp)).1
  have hheadD2 : ∀ e ∈ x, (e.headD []).length = nch := by
    intro e he
    obtain ⟨helen, herow⟩ := hxel e he
    cases e with
    | nil => simp at helen; omega
    | cons r0 rrest => exact herow r0 (by simp)
  have hu : meterUnfold m x = .ok (x.map (unfoldElt nt
      (kernelSize m.block_size m.rate) (strideSize m.block_size m.rate))) := by
    unfold meterUnfold unfoldSig
    rw [hhead]
    rw [if_neg (by omega), if_neg (not_lt.mpr (tgtLength_le _ _ _ hk))]
  refine ⟨_, hu, by simp [hxlen], ?_, ?_⟩
  · intro e he
    obtain ⟨e0, he0, rfl⟩ := List.mem_map.mp he
    unfold unfoldElt
    rw [hheadD2 e0 he0]
    constructor
    · rw [List.length_map, transposeL_length]
    · intro c hc
      obtain ⟨lane, _, rfl⟩ := List.mem_map.mp hc
      constructor
      · exact transposeL_length _ _
      · intro r hr
        have := transposeL_row_length _ _ r hr
        simpa using this
  · intro b c j f hb hc hj hf
    unfold get4 get3
    rw [getD_map_of_lt _ _ _ (by omega : b < x.length) _ []]
    unfold unfoldElt
    rw [hheadD2 (x.getD b []) (getD_mem_of_lt _ _ _ (by omega))]
    have helen : (x.getD b []).length = nt :=
      (hxel _ (getD_mem_of_lt _ _ _ (by omega))).1
    rw [getD_map_of_lt _ _ _ (by rw [transposeL_length]; omega) _ []]
    rw [transposeL_getD _ _ _ hc]
    rw [transposeL_getD _ _ _ hj]
    rw [getD_map_of_lt _ _ _ (by simp; omega) _ []]
    rw [getD_range_map, if_pos hf]
    rw [getD_range_map, if_pos hj]
    have hbound : f * strideSize m.block_size m.rate + j < nt := by
      have htle := tgtLength_le nt (kernelSize m.block_size m.rate)
        (strideSize m.block_size m.rate) hk
      unfold tgtLength at htle
      have hf1 : f ≤ nFrames nt (kernelSize m.block_size m.rate)
          (strideSize m.block_size m.rate) - 1 := by omega
      have hf2 : f * strideSize m.block_size m.rate ≤
          (nFrames nt (kernelSize m.block_size m.rate)
            (strideSize m.block_size m.rate) - 1) *
            strideSize m.block_size m.rate :=
        Nat.mul_le_mul_right _ hf1
      omega
    rw [getD_map_of_lt _ _ _ (by omega) _ []]

/-- Witness for the amended C3 at rate 10 (block length 4, stride 1) on
a `(1, 5, 1)` zero batch. -/
theorem c3_unfold_truncated_layout_witness :
    Rect3 xSil 1 5 1 ∧
    (∃ u, meterUnfold mC4 xSil = .ok u ∧
      u.length = 1 ∧
      (∀ e ∈ u, e.length = 1 ∧
        (∀ c ∈ e, c.length = kernelSize mC4.block_size mC4.rate ∧
          ∀ r ∈ c, r.length = nFrames 5 (kernelSize mC4.block_size mC4.rate)
            (strideSize mC4.block_size mC4.rate))) ∧
      (∀ b c j f, b < 1 → c < 1 → j < kernelSize mC4.block_size mC4.rate →
        f < nFrames 5 (kernelSize mC4.block_size mC4.rate)
          (strideSize mC4.block_size mC4.rate) →
        get4 u b c j f =
          get3 xSil b (f * strideSize mC4.block_size mC4.rate + j) c)) :=
  ⟨by decide,
    c3_unfold_truncated_layout mC4 xSil 1 5 1 (by decide) (by norm_num)
      (by norm_num)
      (by rw [(by with_unfolding_all rfl :
          strideSize mC4.block_size mC4.rate = 1)])
      (by rw [(by with_unfolding_all rfl :
          kernelSize mC4.block_size mC4.rate = 4)]; norm_num)⟩

theorem lfilterFV_length (bc ac : List ℚ) (xl : List FV) :
    (lfilterFV bc ac xl).length = xl.length := by
  unfold lfilterFV
  have h := foldl_append_length (fun ys m =>
    FV.div (FV.add
      (FV.sum ((List.range bc.length).map (fun k =>
        if k ≤ m then FV.mul (FV.fin (bc.getD k 0)) (xl.getD (m - k) (FV.fin 0))
        else FV.fin 0)))
      (FV.mul (FV.fin (-1))
        (FV.sum ((List.range ac.length).map (fun k =>
          if 1 ≤ k ∧ k ≤ m then FV.mul (FV.fin (ac.getD k 0))
            (ys.getD (m - k) (FV.fin 0))
          else FV.fin 0)))))
      (FV.fin (ac.headD 1))) (List.range xl.length) []
  simpa using h

theorem headD_mem {α : Type} (l : List α) (d : α) (h : l ≠ []) :
    l.headD d ∈ l := by
  cases l with
  | nil => exact absurd rfl h
  | cons a t => simp

theorem cpuStage_rect (st : FilterStage) (e : List (List FV)) (nt nch : ℕ)
    (h : Rect2 e nt nch) (hnt : 1 ≤ nt) (hnch : 1 ≤ nch) :
    Rect2 (cpuStage st e) nt nch := by
  obtain ⟨hlen, hrow⟩ := h
  have hhead : (e.headD []).length = nch :=
    hrow _ (headD_mem e [] (by intro hnil; rw [hnil] at hlen; simp at hlen; omega))
  unfold cpuStage
  rw [hhead]
  show Rect2 (List.map (fun row => List.map
      (fun v => FV.mul (FV.fin st.passband_gain) v) row)
    (transposeL (List.map (lfilterFV st.b st.a) (transposeL e nch))
      ((List.map (lfilterFV st.b st.a) (transposeL e nch)).headD []).length)) nt nch
  have hfiltrow : ∀ r ∈ (transposeL e nch).map (lfilterFV st.b st.a),
      r.length = nt := by
    intro r hr
    obtain ⟨lane, hlane, rfl⟩ := List.mem_map.mp hr
    rw [lfilterFV_length]
    rw [transposeL_row_length e nch lane hlane, hlen]
  have hfilthead : (((transposeL e nch).map (lfilterFV st.b st.a)).headD []).length
      = nt := by
    apply hfiltrow
    apply headD_mem
    intro hnil
    have := congrArg List.length hnil
    simp [transposeL_length] at this
    omega
  rw [hfilthead]
  constructor
  · simp [transposeL_length]
  · intro r hr
    obtain ⟨row, hrow2, rfl⟩ := List.mem_map.mp hr
    rw [List.length_map]
    rw [transposeL_row_length _ _ row hrow2]
    simp [transposeL_length]

theorem applyFilterCpu_rect (stages : List FilterStage) (x : Sig)
    (nb nt nch : ℕ) (hx : Rect3 x nb nt nch) (hnt : 1 ≤ nt) (hnch : 1 ≤ nch) :
    Rect3 (applyFilterCpu stages x) nb nt nch := by
  unfold applyFilterCpu
  induction stages generalizing x with
  | nil => exact hx
  | cons st rest ih =>
    simp only [List.foldl_cons]
    apply ih
    obtain ⟨hlen, hel⟩ := hx
    constructor
    · simp [hlen]
    · intro e he
      obtain ⟨e0, he0, rfl⟩ := List.mem_map.mp he
      exact cpuStage_rect st e0 nt nch (hel e0 he0) hnt hnch

theorem rect3_headD_len (y : Sig) (nb nt nch : ℕ) (hy : Rect3 y nb nt nch)
    (hnb : 1 ≤ nb) : (y.headD []).length = nt := by
  obtain ⟨hlen, hel⟩ := hy
  exact (hel _ (headD_mem y [] (by intro hnil; rw [hnil] at hlen; simp at hlen; omega))).1

theorem rect3_headD2_len (y : Sig) (nb nt nch : ℕ) (hy : Rect3 y nb nt nch)
    (hnb : 1 ≤ nb) (hnt : 1 ≤ nt) : ((y.headD []).headD []).length = nch := by
  obtain ⟨hlen, hel⟩ := hy
  have h1 := hel _ (headD_mem y []
    (by intro hnil; rw [hnil] at hlen; simp at hlen; omega))
  obtain ⟨h1len, h1row⟩ := h1
  exact h1row _ (headD_mem _ []
    (by intro hnil; rw [hnil] at h1len; simp at h1len; omega))

theorem gSlice_length_ge6 (nch : ℕ) (h : 6 ≤ nch) : (gSlice nch).length = 5 := by
  simp [gSlice, Gvec]
  omega

theorem mapM_cons_error {α β ε : Type} (f : α → Except ε β) (a : α)
    (t : List α) (e : ε) (h : f a = .error e) : (a :: t).mapM f = .error e := by
  rw [List.mapM_cons, h]
  rfl

theorem gateElt_error_of_lElt (L : ℚ → ℚ) (g : List FV) (z : List (List FV))
    (nF : ℕ) (e : Err) (h : lElt L g z nF = .error e) :
    gateElt L g z nF = .error e := by
  unfold gateElt
  rw [h]
  rfl

theorem lElt_broadcast_error (L : ℚ → ℚ) (g : List FV) (z : List (List FV))
    (nF : ℕ) (h : bcOk g.length z.length = false) :
    lElt L g z nF = .error .broadcastError := by
  unfold lElt bMulSum
  rw [if_neg (by simp [h])]
  rfl

/-- C4 (amended): `integrated_loudness` performs no shape validation at
entry and never raises a `ShapeError`.  Ranks outside 1-3 fail at the
three-way shape unpacking with a generic error after the promotion
step; a channel count above 5 passes the entry unharmed, is filtered,
and only fails during the gain-weighting broadcast (after filtering)
with a broadcast error. -/
theorem c4_no_entry_shape_check (shape : List ℕ) (L : ℚ → ℚ) (m : Meter)
    (data : Sig) (nb nt nch : ℕ)
    (hx : Rect3 data nb nt nch) (hnb : 1 ≤ nb) (hnt : 1 ≤ nt)
    (hnch6 : 6 ≤ nch) (huf : m.use_fir = false)
    (hs : 1 ≤ strideSize m.block_size m.rate)
    (hk : kernelSize m.block_size m.rate ≤ nt)
    (hshape : 3 < shape.length ∨ shape.length = 0) :
    promoteShape shape = .error .valueError ∧
    integratedLoudness L m false data = .error .broadcastError := by
  constructor
  · rcases hshape with hgt | h0
    · rcases shape with _ | ⟨a, _ | ⟨b, _ | ⟨c, _ | ⟨d, rest⟩⟩⟩⟩ <;>
        simp at hgt
      simp only [promoteShape]
      rw [if_neg (show ¬ ((a :: b :: c :: d :: rest).length < 2) by
        simp only [List.length_cons]; omega)]
      rw [if_neg (show ¬ ((a :: b :: c :: d :: rest).length < 3) by
        simp only [List.length_cons]; omega)]
    · rcases shape with _ | ⟨a, t⟩
      · rfl
      · simp at h0
  · have hnch1 : 1 ≤ nch := by omega
    have hfilt : applyFilter m false data = applyFilterCpu m.stages data := by
      unfold applyFilter
      rw [huf]
      rfl
    have hrect := applyFilterCpu_rect m.stages data nb nt nch hx hnt hnch1
    have hflen : ((applyFilterCpu m.stages data).headD []).length = nt :=
      rect3_headD_len _ nb nt nch hrect hnb
    have hunf : meterUnfold m (applyFilterCpu m.stages data) =
        .ok ((applyFilterCpu m.stages data).map (unfoldElt nt
          (kernelSize m.block_size m.rate) (strideSize m.block_size m.rate))) := by
      unfold meterUnfold unfoldSig
      rw [hflen]
      rw [if_neg (by omega), if_neg (not_lt.mpr (tgtLength_le _ _ _ hk))]
    have hbind : ∀ {α β : Type} (a : α) (f : α → Except Err β),
        (Except.ok a >>= f) = f a := fun _ _ => rfl
    have hnch_read : ((data.headD []).headD []).length = nch :=
      rect3_headD2_len data nb nt nch hx hnb hnt
    unfold integratedLoudness integratedLoudnessWith
    rw [hfilt]
    unfold_let
    rw [hunf, hbind]
    rw [hnch_read, hflen]
    rw [List.length_map, List.length_map, hrect.1, hx.1]
    rw [if_pos (Or.inl rfl)]
    obtain ⟨hfl, hfel⟩ := hrect
    rcases hfd : applyFilterCpu m.stages data with _ | ⟨w, rest⟩
    · rw [hfd] at hfl; simp at hfl; omega
    · have hw : Rect2 w nt nch := hfel w (by rw [hfd]; simp)
      have hwhead : (w.headD []).length = nch := by
        obtain ⟨hwlen, hwrow⟩ := hw
        exact hwrow _ (headD_mem w []
          (by intro hnil; rw [hnil] at hwlen; simp at hwlen; omega))
      simp only [List.map_cons]
      apply mapM_cons_error
      apply gateElt_error_of_lElt
      apply lElt_broadcast_error
      rw [gSlice_length_ge6 nch hnch6]
      unfold zOfUnfolded unfoldElt
      rw [List.length_map, List.length_map, transposeL_length, hwhead]
      simp [bcOk]
      omega

/-- Witness for the amended C4: rank-4 shape `[2,2,2,2]` and the
six-channel zero batch `xC4` at rate 10. -/
theorem c4_no_entry_shape_check_witness :
    Rect3 xC4 1 4 6 ∧
    (promoteShape [2, 2, 2, 2] = .error .valueError ∧
     integratedLoudness L0 mC4 false xC4 = .error .broadcastError) :=
  ⟨by decide,
    c4_no_entry_shape_check [2, 2, 2, 2] L0 mC4 xC4 1 4 6 (by decide)
      (by norm_num) (by norm_num) (by norm_num) rfl
      (by rw [(by with_unfolding_all rfl :
          strideSize mC4.block_size mC4.rate = 1)])
      (by rw [(by with_unfolding_all rfl :
          kernelSize mC4.block_size mC4.rate = 4)])
      (Or.inl (by norm_num))⟩

theorem crossCorr_length (w x : List FV) :
    (crossCorr w x).length = x.length + 1 - w.length := by
  simp [crossCorr]

theorem padBoth_length (p : ℕ) (x : List FV) :
    (padBoth p x).length = x.length + 2 * p := by
  simp [padBoth]
  omega

theorem firOf_length (zeros : ℕ) (st : FilterStage) :
    (firOf zeros st).length = zeros := by
  simp [firOf, lfilterFV_length, impulseFV]

theorem gpuStage_length (zeros nt : ℕ) (st : FilterStage) (lane : List FV)
    (h : lane.length = nt) : (gpuStage zeros nt st lane).length = nt := by
  unfold gpuStage
  simp [crossCorr_length, padBoth_length, firOf_length, h]
  omega

theorem foldl_map_comm {α β : Type} (f : β → α → α) (stages : List β)
    (xs : List α) :
    stages.foldl (fun d st => d.map (f st)) xs =
      xs.map (fun x => stages.foldl (fun x st => f st x) x) := by
  induction stages generalizing xs with
  | nil => simp
  | cons st rest ih =>
    simp only [List.foldl_cons]
    rw [ih, List.map_map]
    rfl

theorem gpuLanes_length (zeros nt : ℕ) (stages : List FilterStage)
    (lane : List FV) (h : lane.length = nt) :
    (stages.foldl (fun l st => gpuStage zeros nt st l) lane).length = nt := by
  induction stages generalizing lane with
  | nil => exact h
  | cons st rest ih =>
    simp only [List.foldl_cons]
    exact ih _ (gpuStage_length _ _ _ _ h)

/-- The FIR strategy keeps the per-element time length: each output
element of `apply_filter_gpu` is an `(nt, 1)` lane. -/
theorem applyFilterGpu_headD_len (m : Meter) (x : Sig) (nb nt nch : ℕ)
    (hx : Rect3 x nb nt nch) (hnb : 1 ≤ nb) (hnch : 1 ≤ nch) (hnt : 1 ≤ nt) :
    ((applyFilterGpu m x).headD []).length = nt := by
  obtain ⟨hxlen, hxel⟩ := hx
  cases x with
  | nil => simp at hxlen; omega
  | cons e0 erest =>
    have he0 : Rect2 e0 nt nch := hxel e0 (by simp)
    have hhead0 : (e0.headD []).length = nch := by
      obtain ⟨helen, herow⟩ := he0
      exact herow _ (headD_mem e0 []
        (by intro hnil; rw [hnil] at helen; simp at helen; omega))
    unfold applyFilterGpu
    unfold_let
    rw [foldl_map_comm]
    simp only [List.map_cons, List.flatten_cons, List.headD_cons]
    rw [hhead0]
    rcases htr : transposeL e0 nch with _ | ⟨lane0, lrest⟩
    · have hlen := congrArg List.length htr
      simp [transposeL_length] at hlen
      omega
    · have hlane0 : lane0.length = nt := by
        have hmem : lane0 ∈ transposeL e0 nch := by rw [htr]; simp
        rw [transposeL_row_length _ _ _ hmem, he0.1]
      simp only [List.cons_append, List.map_cons, List.map_append,
        List.headD_cons]
      rw [List.length_take, List.length_map]
      rw [gpuLanes_length _ _ _ _ (by rw [hlane0]; exact he0.1.symm)]
      rw [he0.1]
      omega

/-- C5 (amended): a batch with at least one sample but fewer samples
than one gating block does not produce an all-NaN/zero result — the
strided view of `unfold1d` requests `tgt_length = kernel_size` samples
from a shorter storage and `integrated_loudness` raises the storage
error, under either filter strategy. -/
theorem c5_short_input_raises (L : ℚ → ℚ) (m : Meter) (cuda : Bool)
    (data : Sig) (nb nt nch : ℕ)
    (hx : Rect3 data nb nt nch) (hnb : 1 ≤ nb) (hnch : 1 ≤ nch) (hnt : 1 ≤ nt)
    (hshort : nt < kernelSize m.block_size m.rate)
    (hs : 1 ≤ strideSize m.block_size m.rate) :
    integratedLoudness L m cuda data = .error .storageError := by
  have hflen : ((applyFilter m cuda data).headD []).length = nt := by
    unfold applyFilter
    split
    · exact applyFilterGpu_headD_len m data nb nt nch hx hnb hnch hnt
    · exact rect3_headD_len _ nb nt nch
        (applyFilterCpu_rect m.stages data nb nt nch hx hnt hnch) hnb
  have htgt : nt < tgtLength nt (kernelSize m.block_size m.rate)
      (strideSize m.block_size m.rate) := by
    unfold tgtLength nFrames
    rw [max_eq_right (le_of_lt hshort), Nat.sub_self, Nat.zero_div]
    omega
  have hunf : meterUnfold m (applyFilter m cuda data) =
      .error .storageError := by
    unfold meterUnfold unfoldSig
    rw [hflen]
    rw [if_neg (by omega), if_pos htgt]
  unfold integratedLoudness integratedLoudnessWith
  unfold_let
  rw [hunf]
  rfl

/-- Witness for the amended C5: the `(1, 2, 1)` two-sample batch at
rate 10 (4-sample gating block), direct strategy. -/
theorem c5_short_input_raises_witness :
    Rect3 xC5 1 2 1 ∧
    integratedLoudness L0 mC4 false xC5 = .error .storageError :=
  ⟨by decide,
    c5_short_input_raises L0 mC4 false xC5 1 2 1 (by decide) (by norm_num)
      (by norm_num) (by norm_num)
      (by rw [(by with_unfolding_all rfl :
          kernelSize mC4.block_size mC4.rate = 4)]; norm_num)
      (by rw [(by with_unfolding_all rfl :
          strideSize mC4.block_size mC4.rate = 1)])⟩

theorem mapM_congr_mem {α β ε : Type} (l : List α) (f g : α → Except ε β)
    (h : ∀ a ∈ l, f a = g a) : l.mapM f = l.mapM g := by
  induction l with
  | nil => rfl
  | cons a t ih =>
    rw [List.mapM_cons, List.mapM_cons, h a (by simp),
      ih (fun b hb => h b (by simp [hb]))]

theorem mapM_flatMap_flatten {α β γ ε : Type} (f : α → List β)
    (g : β → Except ε γ) (l : List α) :
    (l.mapM (fun e => (f e).mapM g)).map List.flatten =
      (l.flatMap f).mapM g := by
  induction l with
  | nil => rfl
  | cons e rest ih =>
    rw [List.flatMap_cons, List.mapM_cons, List.mapM_append]
    cases hfe : (f e).mapM g with
    | error err => rfl
    | ok bs =>
      cases hrest : rest.mapM (fun e => (f e).mapM g) with
      | error err =>
        have h2 : (rest.flatMap f).mapM g = .error err := by
          rw [← ih, hrest]; rfl
        rw [h2]
        rfl
      | ok rss =>
        have h2 : (rest.flatMap f).mapM g = .ok rss.flatten := by
          rw [← ih, hrest]; rfl
        rw [h2]
        rfl

theorem applyFilter_headD_len (m : Meter) (cuda : Bool) (x : Sig)
    (nb nt nch : ℕ) (hx : Rect3 x nb nt nch) (hnb : 1 ≤ nb) (hnch : 1 ≤ nch)
    (hnt : 1 ≤ nt) : ((applyFilter m cuda x).headD []).length = nt := by
  unfold applyFilter
  split
  · exact applyFilterGpu_headD_len m x nb nt nch hx hnb hnch hnt
  · exact rect3_headD_len _ nb nt nch
      (applyFilterCpu_rect m.stages x nb nt nch hx hnt hnch) hnb

theorem iL_err_of_unfold (L : ℚ → ℚ) (m : Meter) (cuda : Bool) (data : Sig)
    (err : Err) (h : meterUnfold m (applyFilter m cuda data) = .error err) :
    integratedLoudness L m cuda data = .error err := by
  unfold integratedLoudness integratedLoudnessWith
  unfold_let
  rw [h]
  rfl

theorem iL_zeroDiv (L : ℚ → ℚ) (m : Meter) (cuda : Bool) (data : Sig)
    (h : strideSize m.block_size m.rate = 0) :
    integratedLoudness L m cuda data = .error .zeroDivError := by
  apply iL_err_of_unfold
  unfold meterUnfold unfoldSig
  rw [if_pos h]

theorem iL_storage (L : ℚ → ℚ) (m : Meter) (cuda : Bool) (data : Sig)
    (nt : ℕ) (hhead : ((applyFilter m cuda data).headD []).length = nt)
    (hs0 : ¬ (strideSize m.block_size m.rate = 0))
    (hst : nt < tgtLength nt (kernelSize m.block_size m.rate)
      (strideSize m.block_size m.rate)) :
    integratedLoudness L m cuda data = .error .storageError := by
  apply iL_err_of_unfold
  unfold meterUnfold unfoldSig
  rw [hhead, if_neg hs0, if_pos hst]

/-- Canonical form of `integrated_loudness` once the unfold checks
pass: a `mapM` of the per-element gate over the per-element energies. -/
theorem iL_canon (L : ℚ → ℚ) (m : Meter) (cuda : Bool) (data : Sig) (nt : ℕ)
    (hhead : ((applyFilter m cuda data).headD []).length = nt)
    (hs0 : ¬ (strideSize m.block_size m.rate = 0))
    (hst : ¬ (nt < tgtLength nt (kernelSize m.block_size m.rate)
      (strideSize m.block_size m.rate))) :
    integratedLoudness L m cuda data =
      if (applyFilter m cuda data).length = data.length ∨
          (applyFilter m cuda data).length = 1 then
        ((applyFilter m cuda data).map (fun e =>
          zOfUnfolded (1 / (m.block_size * m.rate))
            (nFrames nt (kernelSize m.block_size m.rate)
              (strideSize m.block_size m.rate))
            (unfoldElt nt (kernelSize m.block_size m.rate)
              (strideSize m.block_size m.rate) e))).mapM
          (fun ze => gateElt L (gSlice (((data.headD []).headD []).length)) ze
            (nFrames nt (kernelSize m.block_size m.rate)
              (strideSize m.block_size m.rate)))
      else .error .expandError := by
  have hunf : meterUnfold m (applyFilter m cuda data) =
      .ok ((applyFilter m cuda data).map (unfoldElt nt
        (kernelSize m.block_size m.rate) (strideSize m.block_size m.rate))) := by
    unfold meterUnfold unfoldSig
    rw [hhead, if_neg hs0, if_neg hst]
  have hbind : ∀ {α β : Type} (a : α) (f : α → Except Err β),
      (Except.ok a >>= f) = f a := fun _ _ => rfl
  unfold integratedLoudness integratedLoudnessWith
  unfold_let
  rw [hunf, hbind]
  unfold_let
  rw [hhead, List.map_map, List.length_map]
  rfl

theorem applyFilterCpu_eq_map (stages : List FilterStage) (x : Sig) :
    applyFilterCpu stages x =
      x.map (fun e => stages.foldl (fun e st => cpuStage st e) e) := by
  unfold applyFilterCpu
  exact foldl_map_comm (fun st e => cpuStage st e) stages x

theorem foldl_cpuStage_rect (stages : List FilterStage) (e : List (List FV))
    (nt nch : ℕ) (h : Rect2 e nt nch) (hnt : 1 ≤ nt) (hnch : 1 ≤ nch) :
    Rect2 (stages.foldl (fun e st => cpuStage st e) e) nt nch := by
  induction stages generalizing e with
  | nil => exact h
  | cons st rest ih =>
    simp only [List.foldl_cons]
    exact ih _ (cpuStage_rect st e nt nch h hnt hnch)

theorem flatMap_length_const {α β : Type} (l : List α) (f : α → List β) (c : ℕ)
    (h : ∀ a ∈ l, (f a).length = c) : (l.flatMap f).length = l.length * c := by
  induction l with
  | nil => simp
  | cons a t ih =>
    rw [List.flatMap_cons, List.length_append, h a (by simp),
      ih (fun b hb => h b (by simp [hb]))]
    simp [Nat.succ_mul]
    omega

theorem rect2_headD_len (e : List (List FV)) (nt nch : ℕ)
    (h : Rect2 e nt nch) (hnt : 1 ≤ nt) : (e.headD []).length = nch := by
  obtain ⟨hlen, hrow⟩ := h
  exact hrow _ (headD_mem e []
    (by intro hnil; rw [hnil] at hlen; simp at hlen; omega))

/-- The FIR strategy decomposed per batch element: each element
contributes its `nch` channel lanes, processed independently. -/
theorem applyFilterGpu_eq_flatMap (m : Meter) (x : Sig) (nb nt nch : ℕ)
    (hx : Rect3 x nb nt nch) (hnb : 1 ≤ nb) (hnt : 1 ≤ nt) :
    applyFilterGpu m x = x.flatMap (fun e =>
      (transposeL e nch).map (fun lane =>
        ((m.stages.foldl (fun l st => gpuStage m.zeros nt st l) lane).map
          (fun v => [v])).take nt)) := by
  have hnt0 : ((x.headD []).length) = nt := rect3_headD_len x nb nt nch hx hnb
  have hrhs : x.flatMap (fun e =>
      (transposeL e nch).map (fun lane =>
        ((m.stages.foldl (fun l st => gpuStage m.zeros nt st l) lane).map
          (fun v => [v])).take nt)) =
      (x.map (fun e =>
        (transposeL e nch).map (fun lane =>
          ((m.stages.foldl (fun l st => gpuStage m.zeros nt st l) lane).map
            (fun v => [v])).take nt))).flatten := rfl
  rw [hrhs]
  unfold applyFilterGpu
  unfold_let
  rw [foldl_map_comm, hnt0]
  rw [List.map_flatten, List.map_map, List.map_map, List.map_flatten, List.map_map]
  refine congrArg List.flatten (List.map_congr_left (fun e he => ?_))
  simp only [Function.comp]
  rw [rect2_headD_len e nt nch (hx.2 e he) hnt]
  rw [List.map_map]
  rfl

theorem flatMap_singleton_map {α β : Type} (l : List α) (f : α → β) :
    l.flatMap (fun a => [f a]) = l.map f := by
  induction l with
  | nil => rfl
  | cons a t ih => rw [List.flatMap_cons, ih]; rfl

theorem mapM_const_error_flatten (batch : Sig) (err : Err) (hne : batch ≠ []) :
    (batch.mapM (fun _ =>
      (Except.error err : Except Err (List FV)))).map List.flatten =
      Except.error err := by
  cases batch with
  | nil => exact absurd rfl hne
  | cons a t =>
    rw [mapM_cons_error (fun _ => (Except.error err : Except Err (List FV)))
      a t err rfl]
    rfl

/-- C8: measuring a stacked batch of rectangular signals of equal length
and channel count agrees with measuring each signal individually: either
both runs fail with the same error (zero stride, storage bound, or the
`Gamma_r` expand on the multichannel FIR path), or the batch result is
exactly the concatenation of the per-signal results — `integrated_loudness`
reduces per batch element with no cross-signal leakage, for every meter,
strategy and logarithm. -/
theorem c8_batching_invariance (L : ℚ → ℚ) (m : Meter) (cuda : Bool)
    (batch : Sig) (nt nch : ℕ) (hne : batch ≠ [])
    (hnt : 1 ≤ nt) (hnch : 1 ≤ nch)
    (hb : ∀ e ∈ batch, Rect2 e nt nch) :
    (batch.mapM (fun e => integratedLoudness L m cuda [e])).map List.flatten =
      integratedLoudness L m cuda batch := by
  by_cases hs0 : strideSize m.block_size m.rate = 0
  · rw [iL_zeroDiv L m cuda batch hs0,
      mapM_congr_mem batch _
        (fun _ => (Except.error Err.zeroDivError : Except Err (List FV)))
        (fun e _ => iL_zeroDiv L m cuda [e] hs0),
      mapM_const_error_flatten batch Err.zeroDivError hne]
  · have hR3 : Rect3 batch batch.length nt nch := ⟨rfl, hb⟩
    have hnb : 1 ≤ batch.length := List.length_pos.mpr hne
    have hheadB : ((applyFilter m cuda batch).headD []).length = nt :=
      applyFilter_headD_len m cuda batch batch.length nt nch hR3 hnb hnch hnt
    have hR3S : ∀ e ∈ batch, Rect3 [e] 1 nt nch := fun e he =>
      ⟨rfl, fun x hx => by rw [List.mem_singleton] at hx; exact hx ▸ hb e he⟩
    have hheadS : ∀ e ∈ batch, ((applyFilter m cuda [e]).headD []).length = nt :=
      fun e he => applyFilter_headD_len m cuda [e] 1 nt nch (hR3S e he)
        (le_refl 1) hnch hnt
    by_cases hst : nt < tgtLength nt (kernelSize m.block_size m.rate)
        (strideSize m.block_size m.rate)
    · rw [iL_storage L m cuda batch nt hheadB hs0 hst,
        mapM_congr_mem batch _
          (fun _ => (Except.error Err.storageError : Except Err (List FV)))
          (fun e he => iL_storage L m cuda [e] nt (hheadS e he) hs0 hst),
        mapM_const_error_flatten batch Err.storageError hne]
    · have hgB : ((batch.headD []).headD []).length = nch :=
        rect2_headD_len _ nt nch (hb _ (headD_mem batch [] hne)) hnt
      have hsing : ∀ e ∈ batch, integratedLoudness L m cuda [e] =
          if (applyFilter m cuda [e]).length = 1 then
            ((applyFilter m cuda [e]).map (fun u =>
              zOfUnfolded (1 / (m.block_size * m.rate))
                (nFrames nt (kernelSize m.block_size m.rate)
                  (strideSize m.block_size m.rate))
                (unfoldElt nt (kernelSize m.block_size m.rate)
                  (strideSize m.block_size m.rate) u))).mapM
              (fun ze => gateElt L (gSlice nch) ze
                (nFrames nt (kernelSize m.block_size m.rate)
                  (strideSize m.block_size m.rate)))
          else .error .expandError := by
        intro e he
        rw [iL_canon L m cuda [e] nt (hheadS e he) hs0 hst]
        have hg : (([e].headD []).headD []).length = nch :=
          rect2_headD_len e nt nch (hb e he) hnt
        rw [hg]
        simp only [List.length_singleton, or_self]
      rw [iL_canon L m cuda batch nt hheadB hs0 hst, hgB,
        mapM_congr_mem batch _ _ hsing]
      cases hcu : (cuda || m.use_fir) with
      | false =>
        have hafB : applyFilter m cuda batch =
            batch.map (fun e =>
              m.stages.foldl (fun acc st => cpuStage st acc) e) := by
          unfold applyFilter
          rw [hcu]
          show applyFilterCpu m.stages batch = _
          exact applyFilterCpu_eq_map m.stages batch
        have hafS : ∀ e : List (List FV), applyFilter m cuda [e] =
            [m.stages.foldl (fun acc st => cpuStage st acc) e] := by
          intro e
          unfold applyFilter
          rw [hcu]
          show applyFilterCpu m.stages [e] = _
          rw [applyFilterCpu_eq_map]
          rfl
        have hcond : (batch.map (fun e =>
              m.stages.foldl (fun acc st => cpuStage st acc) e)).length =
              batch.length ∨
            (batch.map (fun e =>
              m.stages.foldl (fun acc st => cpuStage st acc) e)).length = 1 :=
          Or.inl (by simp)
        rw [hafB, if_pos hcond,
          mapM_congr_mem batch _ (fun e =>
            (([m.stages.foldl (fun acc st => cpuStage st acc) e]).map (fun u =>
              zOfUnfolded (1 / (m.block_size * m.rate))
                (nFrames nt (kernelSize m.block_size m.rate)
                  (strideSize m.block_size m.rate))
                (unfoldElt nt (kernelSize m.block_size m.rate)
                  (strideSize m.block_size m.rate) u))).mapM
              (fun ze => gateElt L (gSlice nch) ze
                (nFrames nt (kernelSize m.block_size m.rate)
                  (strideSize m.block_size m.rate))))
            (fun e _ => by rw [hafS e, if_pos (by rfl)]),
          mapM_flatMap_flatten (fun e =>
            (([m.stages.foldl (fun acc st => cpuStage st acc) e]).map (fun u =>
              zOfUnfolded (1 / (m.block_size * m.rate))
                (nFrames nt (kernelSize m.block_size m.rate)
                  (strideSize m.block_size m.rate))
                (unfoldElt nt (kernelSize m.block_size m.rate)
                  (strideSize m.block_size m.rate) u))))
            (fun ze => gateElt L (gSlice nch) ze
              (nFrames nt (kernelSize m.block_size m.rate)
                (strideSize m.block_size m.rate))) batch]
        have hcollapse : batch.flatMap (fun e =>
            (([m.stages.foldl (fun acc st => cpuStage st acc) e]).map (fun u =>
              zOfUnfolded (1 / (m.block_size * m.rate))
                (nFrames nt (kernelSize m.block_size m.rate)
                  (strideSize m.block_size m.rate))
                (unfoldElt nt (kernelSize m.block_size m.rate)
                  (strideSize m.block_size m.rate) u)))) =
            (batch.map (fun e =>
              m.stages.foldl (fun acc st => cpuStage st acc) e)).map (fun u =>
              zOfUnfolded (1 / (m.block_size * m.rate))
                (nFrames nt (kernelSize m.block_size m.rate)
                  (strideSize m.block_size m.rate))
                (unfoldElt nt (kernelSize m.block_size m.rate)
                  (strideSize m.block_size m.rate) u)) := by
          rw [List.map_map]
          exact flatMap_singleton_map batch _
        rw [hcollapse]
      | true =>
        have hafBg : applyFilter m cuda batch =
            batch.flatMap (fun e => (transposeL e nch).map (fun lane =>
              ((m.stages.foldl (fun l st => gpuStage m.zeros nt st l) lane).map
                (fun v => [v])).take nt)) := by
          unfold applyFilter
          rw [hcu]
          show applyFilterGpu m batch = _
          exact applyFilterGpu_eq_flatMap m batch batch.length nt nch hR3 hnb hnt
        have hafSg : ∀ e ∈ batch, applyFilter m cuda [e] =
            (transposeL e nch).map (fun lane =>
              ((m.stages.foldl (fun l st => gpuStage m.zeros nt st l) lane).map
                (fun v => [v])).take nt) := by
          intro e he
          unfold applyFilter
          rw [hcu]
          show applyFilterGpu m [e] = _
          rw [applyFilterGpu_eq_flatMap m [e] 1 nt nch (hR3S e he) (le_refl 1)
            hnt]
          rw [List.flatMap_cons, List.flatMap_nil, List.append_nil]
        have hpfl : ∀ e : List (List FV), ((transposeL e nch).map (fun lane =>
            ((m.stages.foldl (fun l st => gpuStage m.zeros nt st l) lane).map
              (fun v => [v])).take nt)).length = nch := by
          intro e
          rw [List.length_map, transposeL_length]
        have hlen : (batch.flatMap (fun e => (transposeL e nch).map (fun lane =>
            ((m.stages.foldl (fun l st => gpuStage m.zeros nt st l) lane).map
              (fun v => [v])).take nt))).length = batch.length * nch :=
          flatMap_length_const batch _ nch (fun a _ => hpfl a)
        by_cases h1 : nch = 1
        · subst h1
          have hcondg : (batch.flatMap (fun e =>
                (transposeL e 1).map (fun lane =>
                  ((m.stages.foldl (fun l st => gpuStage m.zeros nt st l)
                    lane).map (fun v => [v])).take nt))).length =
                batch.length ∨
              (batch.flatMap (fun e =>
                (transposeL e 1).map (fun lane =>
                  ((m.stages.foldl (fun l st => gpuStage m.zeros nt st l)
                    lane).map (fun v => [v])).take nt))).length = 1 :=
            Or.inl (by rw [hlen]; omega)
          rw [hafBg, if_pos hcondg,
            mapM_congr_mem batch _ (fun e =>
              (((transposeL e 1).map (fun lane =>
                ((m.stages.foldl (fun l st => gpuStage m.zeros nt st l)
                  lane).map (fun v => [v])).take nt)).map (fun u =>
                zOfUnfolded (1 / (m.block_size * m.rate))
                  (nFrames nt (kernelSize m.block_size m.rate)
                    (strideSize m.block_size m.rate))
                  (unfoldElt nt (kernelSize m.block_size m.rate)
                    (strideSize m.block_size m.rate) u))).mapM
                (fun ze => gateElt L (gSlice 1) ze
                  (nFrames nt (kernelSize m.block_size m.rate)
                    (strideSize m.block_size m.rate))))
              (fun e he => by rw [hafSg e he, if_pos (hpfl e)]),
            mapM_flatMap_flatten (fun e =>
              ((transposeL e 1).map (fun lane =>
                ((m.stages.foldl (fun l st => gpuStage m.zeros nt st l)
                  lane).map (fun v => [v])).take nt)).map (fun u =>
                zOfUnfolded (1 / (m.block_size * m.rate))
                  (nFrames nt (kernelSize m.block_size m.rate)
                    (strideSize m.block_size m.rate))
                  (unfoldElt nt (kernelSize m.block_size m.rate)
                    (strideSize m.block_size m.rate) u)))
              (fun ze => gateElt L (gSlice 1) ze
                (nFrames nt (kernelSize m.block_size m.rate)
                  (strideSize m.block_size m.rate))) batch,
            List.map_flatMap]
        · have hcondg : ¬ ((batch.flatMap (fun e =>
                (transposeL e nch).map (fun lane =>
                  ((m.stages.foldl (fun l st => gpuStage m.zeros nt st l)
                    lane).map (fun v => [v])).take nt))).length =
                batch.length ∨
              (batch.flatMap (fun e =>
                (transposeL e nch).map (fun lane =>
                  ((m.stages.foldl (fun l st => gpuStage m.zeros nt st l)
                    lane).map (fun v => [v])).take nt))).length = 1) := by
            rw [hlen]
            rintro (h | h)
            · exact h1 (Nat.eq_of_mul_eq_mul_left hnb
                (by rw [Nat.mul_one]; exact h))
            · have h2 : 2 ≤ nch := by
                rcases Nat.lt_or_ge nch 2 with hlt | hge
                · exact absurd (by omega) h1
                · exact hge
              have h3 := Nat.mul_le_mul hnb h2
              omega
          rw [hafBg, if_neg hcondg,
            mapM_congr_mem batch _
              (fun _ => (Except.error Err.expandError : Except Err (List FV)))
              (fun e he => by
                rw [hafSg e he, if_neg (by rw [hpfl e]; exact h1)]),
            mapM_const_error_flatten batch Err.expandError hne]

theorem c8_batching_invariance_witness :
    (xC8 ≠ [] ∧ 1 ≤ 4 ∧ 1 ≤ 1 ∧ ∀ e ∈ xC8, Rect2 e 4 1) ∧
    (xC8.mapM (fun e =>
      integratedLoudness L0 mC4 false [e])).map List.flatten =
      integratedLoudness L0 mC4 false xC8 :=
  ⟨⟨by decide, by decide, by decide, by decide⟩,
    c8_batching_invariance L0 mC4 false xC8 4 1 (by decide) (by decide)
      (by decide) (by decide)⟩
